import Mathlib

/-!
Verification model of the rparser C-preprocessor core.

The definitions below are a shallow embedding of the Rust sources:
  * `initial/src/line.rs`   — annotated lines (`Line`, `CharInfo`, `push`, …)
  * `initial/src/lines.rs`  — `Lines::new` (via `bstr` `lines()`),
    `merge_escaped_newlines`, `delete_comments`, `should_emit`, `backtrack`,
    `finish`
  * `preprocessor/src/lexer.rs` — the phase-3 tokenizer

Bytes are modelled as `Nat` (only equality tests are performed on them).
Rust panics (index underflow/out of bounds, `unwrap` on `None`,
`unreachable!`) are modelled as `none` / `.error .panic`; the one genuinely
diverging loop in the lexer is modelled as `.error .diverge`.
-/

namespace RP

def bytes (s : String) : List Nat := s.data.map Char.toNat

/-! ## Line model (initial/src/line.rs) -/

structure Line where
  text : List Nat
  trivial : List Bool
  synthetic : List Bool
deriving DecidableEq

def emptyLine : Line := ⟨[], [], []⟩

structure CharInfo where
  ch : Nat
  trivial : Bool
  synthetic : Bool
deriving DecidableEq

/-- `OwnedLine::push`: pushes the byte and both flags. -/
def Line.push (l : Line) (i : CharInfo) : Line :=
  ⟨l.text ++ [i.ch], l.trivial ++ [i.trivial], l.synthetic ++ [i.synthetic]⟩

/-- `Line::chars` (itertools `izip!`, which stops at the shortest input). -/
def Line.chars (l : Line) : List CharInfo :=
  (l.text.zip (l.trivial.zip l.synthetic)).map fun p => ⟨p.1, p.2.1, p.2.2⟩

/-- `Line::to_non_trivial`. -/
def Line.toNonTrivial (l : Line) : List Nat :=
  (l.text.zip l.trivial).filterMap fun p => if p.2 then none else some p.1

/-! ## Line construction (`Lines::new`, using bstr `lines()`: lines are split
on `\n`, the terminator is not part of the line, a `\r` preceding the `\n` is
stripped, and a final unterminated segment is kept verbatim). -/

def stripCr (l : List Nat) : List Nat :=
  if l.getLast? = some 13 then l.dropLast else l

def splitGo (cur : List Nat) : List Nat → List (List Nat)
  | [] => if cur.isEmpty then [] else [cur.reverse]
  | c :: rs => if c = 10 then stripCr cur.reverse :: splitGo [] rs else splitGo (c :: cur) rs

def splitLinesBytes (input : List Nat) : List (List Nat) := splitGo [] input

def splitLines (input : List Nat) : List Line :=
  (splitLinesBytes input).map fun t => ⟨t, t.map fun _ => false, t.map fun _ => false⟩

/-! ## Splice stage (`Lines::merge_escaped_newlines`) -/

def endsBackslash (t : List Nat) : Bool := t.getLast? = some 92

/-- `line.trivial.iter().take(line.trivial.len() - 2).chain([true, true])`.
The subtraction `len - 2` is a `usize` subtraction: when `len < 2` it
underflows and the Rust program panics (debug profile); the caller models
that case as `none`. -/
def spliceTrivial (triv : List Bool) : List Bool :=
  triv.take (triv.length - 2) ++ [true, true]

def appendLine (b l : Line) : Line :=
  ⟨b.text ++ l.text, b.trivial ++ l.trivial, b.synthetic ++ l.synthetic⟩

def mergeGo : List Line → Line → Option (List Line)
  | [], b => if b.text.isEmpty then some [] else some [b]
  | l :: ls, b =>
    if endsBackslash l.text then
      if l.trivial.length < 2 then none
      else mergeGo ls ⟨b.text ++ l.text, b.trivial ++ spliceTrivial l.trivial,
                       b.synthetic ++ l.synthetic⟩
    else if b.text.isEmpty then (mergeGo ls emptyLine).map (l :: ·)
    else (mergeGo ls emptyLine).map (appendLine b l :: ·)

def mergeEscapedNewlines (ls : List Line) : Option (List Line) := mergeGo ls emptyLine

/-! ## Comment-strip stage (`Lines::delete_comments`, `should_emit`,
`backtrack`) -/

structure CommentState where
  in_string : Bool
  in_block_comment : Bool
  in_line_comment : Bool
  prev_char : Nat
deriving DecidableEq

def initComments : CommentState := ⟨false, false, false, 0⟩

structure EmitR where
  ch : Nat
  pop_count : Nat
deriving DecidableEq

/-- `should_emit` from initial/src/lines.rs; the Rust function mutates the
state, modelled here by returning the updated state. Byte values: `"` = 34,
`*` = 42, `/` = 47, `\\` = 92, `\n` = 10, space = 32. -/
def shouldEmit (ch : Nat) (c : CommentState) : Option EmitR × CommentState :=
  if c.in_string then
    if ch = 34 ∧ c.prev_char ≠ 92 then (some ⟨ch, 0⟩, { c with in_string := false })
    else (some ⟨ch, 0⟩, c)
  else if c.in_block_comment ∧ ch = 47 ∧ c.prev_char = 42 then
    (none, { c with in_block_comment := false })
  else if c.in_line_comment ∧ ch = 10 then
    (some ⟨ch, 0⟩, { c with in_line_comment := false })
  else if c.in_line_comment ∨ c.in_block_comment then
    (none, c)
  else if ch = 47 then
    if c.prev_char = 47 then (some ⟨32, 2⟩, { c with in_line_comment := true })
    else (some ⟨ch, 0⟩, c)
  else if ch = 42 then
    if c.prev_char = 47 then (some ⟨32, 2⟩, { c with in_block_comment := true })
    else (some ⟨ch, 0⟩, c)
  else if ch = 34 then
    (some ⟨ch, 0⟩, { c with in_string := !c.in_string })
  else (some ⟨ch, 0⟩, c)

/-- Flip the rightmost `false` entry to `true`; `none` when every entry is
already `true` (in that case the Rust `backtrack` indexes `trivial[i - 1]`
with `i = 0` and panics). -/
def flipLastFalse : List Bool → Option (List Bool)
  | [] => none
  | b :: bs =>
    match flipLastFalse bs with
    | some bs' => some (b :: bs')
    | none => if b then none else some (true :: bs)

/-- `backtrack(builder, pop_count)`: walks leftward skipping bytes already
marked trivial and flips the next `pop_count` non-trivial flags to trivial. -/
def backtrack (l : Line) (pop : Nat) : Option Line :=
  match pop with
  | 0 => some l
  | p + 1 => do
    let tr ← flipLastFalse l.trivial
    backtrack ⟨l.text, tr, l.synthetic⟩ p

/-- `*builder.trivial.last_mut().unwrap() = true` (panics on an empty
builder). -/
def setLastTrivial (l : Line) : Option Line :=
  match l.trivial.getLast? with
  | none => none
  | some _ => some ⟨l.text, l.trivial.dropLast ++ [true], l.synthetic⟩

/-- Body of the per-character loop of `delete_comments`: the character is
pushed first; if the state machine refuses it its `trivial` flag is set; if
it asks for a substitute the builder is backtracked and the substitute is
pushed as synthetic; finally `prev_char` is updated when the input character
was non-trivial. -/
def charStep (b : Line) (c : CommentState) (i : CharInfo) : Option (Line × CommentState) :=
  match shouldEmit i.ch c with
  | (some e, c') =>
    (backtrack (b.push i) e.pop_count).map fun b' =>
      (if e.ch ≠ i.ch then b'.push ⟨e.ch, false, true⟩ else b',
       if !i.trivial then { c' with prev_char := i.ch } else c')
  | (none, c') =>
    (setLastTrivial (b.push i)).map fun b' =>
      (b', if !i.trivial then { c' with prev_char := i.ch } else c')

/-- End-of-line handling of `delete_comments`: the virtual byte `\n` is fed
through `should_emit` (nothing was pushed for it), then `prev_char` is reset
to `\n`. -/
def eolStep (b : Line) (c : CommentState) : Option (Line × CommentState) :=
  match shouldEmit 10 c with
  | (some e, c') =>
    (backtrack b e.pop_count).map fun b' =>
      (if e.ch ≠ 10 then b'.push ⟨e.ch, false, true⟩ else b',
       { c' with prev_char := 10 })
  | (none, c') =>
    (setLastTrivial b).map fun b' => (b', { c' with prev_char := 10 })

def processLine (b : Line) (c : CommentState) (l : Line) : Option (Line × CommentState) := do
  let r ← l.chars.foldlM (fun (p : Line × CommentState) i => charStep p.1 p.2 i) (b, c)
  eolStep r.1 r.2

def deleteGo : List Line → Line → CommentState → Option (List Line)
  | [], _, _ => some []
  | l :: ls, b, c => do
    let r ← processLine b c l
    if r.2.in_block_comment then
      deleteGo ls r.1 r.2
    else do
      let rest ← deleteGo ls emptyLine r.2
      some (r.1 :: rest)

def deleteComments (ls : List Line) : Option (List Line) :=
  deleteGo ls emptyLine initComments

/-! ## Materialize (`Lines::finish`) -/

def finish (ls : List Line) : List Nat :=
  ls.foldl (fun acc l => acc ++ l.toNonTrivial ++ [10]) []

def pipelineLines (input : List Nat) : Option (List Line) :=
  (mergeEscapedNewlines (splitLines input)).bind deleteComments

def materializeInput (input : List Nat) : Option (List Nat) :=
  (pipelineLines input).map finish

/-! ## Tokenizer (preprocessor/src/token.rs, preprocessor/src/lexer.rs) -/

inductive Punct where
  | period | arrow | plusPlus | minusMinus | amp | plus | minus | tilde | bang
  | slash | percent | ltLt | gtGt | lt | gt | ltEq | gtEq | eqEq | bangEq
  | caret | pipe | ampAmp | pipePipe | question | starEq | slashEq | percentEq
  | plusEq | minusEq | ltLtEq | gtGtEq | ampEq | caretEq | pipeEq | hashHash
  | lBrack | rBrack | lParen | rParen | star | comma | colon | eq | hash
  | lBrace | rBrace | semicolon | ellipsis
deriving DecidableEq

inductive Token where
  | ident (s : List Nat)
  | stringLit (s : List Nat)
  | number (s : List Nat)
  | punct (p : Punct)
  | other (s : List Nat)
  | eol
  | eof
deriving DecidableEq

def Token.isHash : Token → Bool
  | .punct .hash => true
  | _ => false

/-- Abnormal lexer outcomes: `panic` models a reached `unreachable!` or a
failed `unwrap`; `diverge` models the infinite loop of `scan_string_lit`
when it moves past the end of the buffer. -/
inductive LexAbort where
  | panic
  | diverge
deriving DecidableEq

structure LexState where
  pos : Nat
  at_line_start : Bool
  in_directive : Bool
deriving DecidableEq

def initLex : LexState := ⟨0, true, false⟩

def cur (input : List Nat) (s : LexState) : Option Nat := input[s.pos]?

def peek (input : List Nat) (s : LexState) : Option Nat := input[s.pos + 1]?

/-- `Lexer::move_on`: consuming a `\n` sets `at_line_start` and clears
`in_directive`. -/
def moveOn (input : List Nat) (s : LexState) : LexState :=
  let c := cur input s
  let s := { s with pos := s.pos + 1 }
  if c = some 10 then { s with at_line_start := true, in_directive := false } else s

/-- `Lexer::end_token`. -/
def endToken (s : LexState) (t : Token) : Token × LexState :=
  let s := if s.at_line_start ∧ t.isHash then { s with in_directive := true } else s
  (t, { s with at_line_start := false })

def isWsByte (c : Nat) : Bool := c = 32 ∨ c = 9 ∨ c = 13

/-- `Lexer::skip_whitespace`; the `Bool` result is `true` when a `\n` was
consumed (the Rust function then returns `Some(Eol)`). The fuel argument is a
termination device only; every call site passes `input.length + 1`, which is
never exhausted because each iteration requires an in-bounds byte. -/
def skipWs (input : List Nat) : Nat → LexState → LexState × Bool
  | 0, s => (s, false)
  | fuel + 1, s =>
    match cur input s with
    | some c =>
      if isWsByte c then skipWs input fuel (moveOn input s)
      else if c = 10 then (moveOn input s, true)
      else (s, false)
    | none => (s, false)

def isIdentByte (c : Nat) : Bool :=
  (97 ≤ c ∧ c ≤ 122) ∨ (65 ≤ c ∧ c ≤ 90) ∨ c = 95

def isDigit (c : Nat) : Bool := 48 ≤ c ∧ c ≤ 57

/-- The loop of `Lexer::scan_ident`. -/
def identLoop (input : List Nat) : Nat → LexState → LexState
  | 0, s => s
  | fuel + 1, s =>
    match cur input s with
    | some c => if isIdentByte c then identLoop input fuel (moveOn input s) else s
    | none => s

def slice (input : List Nat) (start stop : Nat) : List Nat :=
  (input.drop start).take (stop - start)

def scanIdent (input : List Nat) (s : LexState) : Token × LexState :=
  endToken (identLoop input (input.length + 1) s)
    (.ident (slice input s.pos (identLoop input (input.length + 1) s).pos))

/-- Continuation bytes of `scan_number` other than the exponent letters:
digits, `.`, `_`, and every letter except `e`, `E`, `p`, `P`. -/
def isNumContByte (c : Nat) : Bool :=
  isDigit c ∨ c = 46 ∨ c = 95 ∨
  (97 ≤ c ∧ c ≤ 100) ∨ (102 ≤ c ∧ c ≤ 111) ∨ (113 ≤ c ∧ c ≤ 122) ∨
  (65 ≤ c ∧ c ≤ 68) ∨ (70 ≤ c ∧ c ≤ 79) ∨ (81 ≤ c ∧ c ≤ 90)

def isExpByte (c : Nat) : Bool := c = 101 ∨ c = 69 ∨ c = 112 ∨ c = 80

/-- The loop of `Lexer::scan_number`. -/
def numLoop (input : List Nat) : Nat → LexState → LexState
  | 0, s => s
  | fuel + 1, s =>
    match cur input s with
    | some c =>
      if isNumContByte c then numLoop input fuel (moveOn input s)
      else if isExpByte c then
        if cur input (moveOn input s) = some 43 ∨ cur input (moveOn input s) = some 45 then
          numLoop input fuel (moveOn input (moveOn input s))
        else numLoop input fuel (moveOn input s)
      else s
    | none => s

/-- `Lexer::scan_number`; `none` is the rejection of a lone `.` (the lexer
rewinds to `start` and the caller falls back to `scan_punct`). -/
def scanNumber (input : List Nat) (s : LexState) : Option (Token × LexState) :=
  match cur input s with
  | none => none
  | some first =>
    if first = 46 ∧ (cur input (moveOn input s)).any isDigit = false then none
    else
      some (endToken (numLoop input (input.length + 1) (moveOn input s))
        (.number (slice input s.pos
          (numLoop input (input.length + 1) (moveOn input s)).pos)))

/-- The loop of `Lexer::scan_string_lit`. Once the position moves past the
end of the buffer the Rust loop hits its catch-all arm forever
(`_ => self.move_on()`), so `cur = none` is modelled as `.error .diverge`. -/
def strLoop (input : List Nat) (first terminator start : Nat) :
    Nat → LexState → Except LexAbort (Option (Token × LexState))
  | 0, _ => .error .diverge
  | fuel + 1, s =>
    match cur input s with
    | none => .error .diverge
    | some c =>
      if c = terminator then
        .ok (some (endToken (moveOn input s)
          (.stringLit (slice input start (moveOn input s).pos))))
      else if c = 92 ∧ first ≠ 60 then
        strLoop input first terminator start fuel (moveOn input (moveOn input s))
      else if c = 10 then
        if first = 60 then .ok none
        else .ok (some (endToken s (.other (slice input start s.pos))))
      else strLoop input first terminator start fuel (moveOn input s)

/-- `Lexer::scan_string_lit`; `.ok none` is a rejection (the lexer rewinds
`pos` to `start` and the caller falls back to `scan_punct`). -/
def scanStringLit (input : List Nat) (s : LexState) :
    Except LexAbort (Option (Token × LexState)) :=
  match cur input s with
  | none => .error .panic
  | some first =>
    if first = 34 ∨ first = 39 ∨ first = 60 then
      if cur input (moveOn input s) = some 58 ∨ cur input (moveOn input s) = some 37 then
        .ok none
      else
        strLoop input first (if first = 34 then 34 else if first = 39 then 39 else 62)
          s.pos (input.length + 1) (moveOn input s)
    else .error .panic

/-- The `// not a digraph` match of `Lexer::scan_punct` (its digraph
prologue is in `scanPunct` below). The final `_` arm is
`unreachable!("impossible punctuation")`. -/
def mainPunct (input : List Nat) (first : Nat) (s : LexState) :
    Except LexAbort (Token × LexState) :=
  if first = 91 then .ok (endToken s (.punct .lBrack))
  else if first = 93 then .ok (endToken s (.punct .rBrack))
  else if first = 40 then .ok (endToken s (.punct .lParen))
  else if first = 41 then .ok (endToken s (.punct .rParen))
  else if first = 46 then
    if cur input s = some 46 ∧ peek input s = some 46 then
      .ok (endToken (moveOn input (moveOn input s)) (.punct .ellipsis))
    else .ok (endToken s (.punct .period))
  else if first = 45 then
    if cur input s = some 62 then .ok (endToken (moveOn input s) (.punct .arrow))
    else if cur input s = some 45 then .ok (endToken (moveOn input s) (.punct .minusMinus))
    else if cur input s = some 61 then .ok (endToken (moveOn input s) (.punct .minusEq))
    else .ok (endToken s (.punct .minus))
  else if first = 43 then
    if cur input s = some 43 then .ok (endToken (moveOn input s) (.punct .plusPlus))
    else if cur input s = some 61 then .ok (endToken (moveOn input s) (.punct .plusEq))
    else .ok (endToken s (.punct .plus))
  else if first = 38 then
    if cur input s = some 38 then .ok (endToken (moveOn input s) (.punct .ampAmp))
    else if cur input s = some 61 then .ok (endToken (moveOn input s) (.punct .ampEq))
    else .ok (endToken s (.punct .amp))
  else if first = 42 then
    if cur input s = some 61 then .ok (endToken (moveOn input s) (.punct .starEq))
    else .ok (endToken s (.punct .star))
  else if first = 126 then .ok (endToken s (.punct .tilde))
  else if first = 33 then
    if cur input s = some 61 then .ok (endToken (moveOn input s) (.punct .bangEq))
    else .ok (endToken s (.punct .bang))
  else if first = 47 then
    if cur input s = some 61 then .ok (endToken (moveOn input s) (.punct .slashEq))
    else .ok (endToken s (.punct .slash))
  else if first = 37 then
    if cur input s = some 61 then .ok (endToken (moveOn input s) (.punct .percentEq))
    else .ok (endToken s (.punct .percent))
  else if first = 60 then
    if cur input s = some 61 then .ok (endToken (moveOn input s) (.punct .ltEq))
    else if cur input s = some 60 then
      if cur input (moveOn input s) = some 61 then
        .ok (endToken (moveOn input (moveOn input s)) (.punct .ltLtEq))
      else .ok (endToken (moveOn input s) (.punct .ltLt))
    else .ok (endToken s (.punct .lt))
  else if first = 62 then
    if cur input s = some 61 then .ok (endToken (moveOn input s) (.punct .gtEq))
    else if cur input s = some 62 then
      if cur input (moveOn input s) = some 61 then
        .ok (endToken (moveOn input (moveOn input s)) (.punct .gtGtEq))
      else .ok (endToken (moveOn input s) (.punct .gtGt))
    else .ok (endToken s (.punct .gt))
  else if first = 61 then
    if cur input s = some 61 then .ok (endToken (moveOn input s) (.punct .eqEq))
    else .ok (endToken s (.punct .eq))
  else if first = 94 then
    if cur input s = some 61 then .ok (endToken (moveOn input s) (.punct .caretEq))
    else .ok (endToken s (.punct .caret))
  else if first = 124 then
    if cur input s = some 124 then .ok (endToken (moveOn input s) (.punct .pipePipe))
    else if cur input s = some 61 then .ok (endToken (moveOn input s) (.punct .pipeEq))
    else .ok (endToken s (.punct .pipe))
  else if first = 63 then .ok (endToken s (.punct .question))
  else if first = 58 then .ok (endToken s (.punct .colon))
  else if first = 44 then .ok (endToken s (.punct .comma))
  else if first = 35 then
    if cur input s = some 35 then .ok (endToken (moveOn input s) (.punct .hashHash))
    else .ok (endToken s (.punct .hash))
  else if first = 123 then .ok (endToken s (.punct .lBrace))
  else if first = 125 then .ok (endToken s (.punct .rBrace))
  else if first = 59 then .ok (endToken s (.punct .semicolon))
  else .error .panic

/-- `Lexer::scan_punct`: digraph check first, then the main table. Note the
`%:` branch: when the bytes after `%:` are not `%:`, the `:` has already
been consumed and control falls through to the main table, which emits
`Percent`. -/
def scanPunct (input : List Nat) (s : LexState) : Except LexAbort (Token × LexState) :=
  match cur input s with
  | none => .error .panic
  | some first =>
    if first = 60 then
      if cur input (moveOn input s) = some 58 then
        .ok (endToken (moveOn input (moveOn input s)) (.punct .lBrack))
      else if cur input (moveOn input s) = some 37 then
        .ok (endToken (moveOn input (moveOn input s)) (.punct .lBrace))
      else mainPunct input first (moveOn input s)
    else if first = 37 then
      if cur input (moveOn input s) = some 62 then
        .ok (endToken (moveOn input (moveOn input s)) (.punct .rBrace))
      else if cur input (moveOn input s) = some 58 then
        if cur input (moveOn input (moveOn input s)) = some 37 ∧
            peek input (moveOn input (moveOn input s)) = some 58 then
          .ok (endToken (moveOn input (moveOn input (moveOn input (moveOn input s))))
            (.punct .hashHash))
        else mainPunct input first (moveOn input (moveOn input s))
      else mainPunct input first (moveOn input s)
    else if first = 58 then
      if cur input (moveOn input s) = some 62 then
        .ok (endToken (moveOn input (moveOn input s)) (.punct .rBrack))
      else mainPunct input first (moveOn input s)
    else mainPunct input first (moveOn input s)

def scanOther (input : List Nat) (s : LexState) : Token × LexState :=
  endToken (moveOn input s) (.other (slice input s.pos (moveOn input s).pos))

/-- The punctuator byte ranges of the dispatch in `<Lexer as Iterator>::next`:
`! # %..& (..- / :..; =..? [..^ {..~`. -/
def isPunctByte (c : Nat) : Bool :=
  c = 33 ∨ c = 35 ∨ (37 ≤ c ∧ c ≤ 38) ∨ (40 ≤ c ∧ c ≤ 45) ∨ c = 47 ∨
  (58 ≤ c ∧ c ≤ 59) ∨ (61 ≤ c ∧ c ≤ 63) ∨ (91 ≤ c ∧ c ≤ 94) ∨
  (123 ≤ c ∧ c ≤ 126)

/-- `<Lexer as Iterator>::next`; `.ok none` is end of input. -/
def next (input : List Nat) (s : LexState) :
    Except LexAbort (Option (Token × LexState)) :=
  match skipWs input (input.length + 1) s with
  | (s, true) => .ok (some (.eol, s))
  | (s, false) =>
    match cur input s with
    | some c =>
      if isIdentByte c then .ok (some (scanIdent input s))
      else if isDigit c ∨ c = 46 then
        match scanNumber input s with
        | some r => .ok (some r)
        | none => (scanPunct input s).map some
      else if c = 34 ∨ c = 39 ∨ c = 60 then
        if s.in_directive ∨ c ≠ 60 then
          match scanStringLit input s with
          | .error e => .error e
          | .ok (some r) => .ok (some r)
          | .ok none => (scanPunct input s).map some
        else (scanPunct input s).map some
      else if isPunctByte c then (scanPunct input s).map some
      else .ok (some (scanOther input s))
    | none => .ok none

/-- The token stream of `lex`: iterate `next` and append a final `Eof`. The
fuel argument only bounds the iteration; `input.length + 1` calls always
suffice because every token consumes at least one byte. -/
def lexFuel (input : List Nat) : Nat → LexState → Except LexAbort (List Token)
  | 0, _ => .error .diverge
  | fuel + 1, s =>
    match next input s with
    | .error e => .error e
    | .ok none => .ok [.eof]
    | .ok (some (t, s')) => (lexFuel input fuel s').map (t :: ·)

def lexBytes (input : List Nat) : Except LexAbort (List Token) :=
  lexFuel input (input.length + 1) initLex

/-! ## Auxiliary checkers used in claim statements -/

/-- `true` iff some byte of some line has `trivial` and `synthetic` both
set. -/
def hasTrivialSyntheticByte (ls : List Line) : Bool :=
  ls.any fun l => (l.trivial.zip l.synthetic).any fun p => p.1 && p.2

/-- `true` iff every synthetic byte of every line is the space byte 32. -/
def synthSpacesOnly (ls : List Line) : Bool :=
  ls.all fun l => (l.text.zip l.synthetic).all fun p => !p.2 || p.1 = 32

/-- Length-coherent line containing none of the bytes `"` (34), `*` (42),
`/` (47) that the comment state machine reacts to. -/
def plainLineB (l : Line) : Bool :=
  l.trivial.length = l.text.length ∧ l.synthetic.length = l.text.length ∧
    l.text.all fun c => c ≠ 34 ∧ c ≠ 47 ∧ c ≠ 42

def pushAll (b : Line) (is : List CharInfo) : Line := is.foldl Line.push b

/-- All `synthetic` flags are `false` (true of every line produced by the
line constructor and the splice stage). -/
def synthFalse (l : Line) : Prop := ∀ b ∈ l.synthetic, b = false

/-- Length-coherent line in which every synthetic byte is the space byte. -/
def lineOk (l : Line) : Prop :=
  l.trivial.length = l.text.length ∧ l.synthetic.length = l.text.length ∧
    ∀ p ∈ l.text.zip l.synthetic, p.2 = true → p.1 = 32

/-- The facts the dispatcher needs about a punctuator scan that started in
state `s₀`: the position advances but stays in bounds, `at_line_start` is
cleared, `in_directive` can only be (or become) set when a `#` punctuator
was scanned at the start of a line, and no string literal is produced. -/
def punctFacts (input : List Nat) (s₀ : LexState) (t : Token) (s' : LexState) : Prop :=
  s₀.pos ≤ s'.pos ∧ s'.pos ≤ input.length ∧ s'.at_line_start = false ∧
  (s'.in_directive = true →
    s₀.in_directive = true ∨ (s₀.at_line_start = true ∧ t = .punct .hash)) ∧
  (∀ bs, t ≠ .stringLit bs) ∧ t ≠ .eol

/-- Checks the header-name discipline over a token list: scanning with
`als` = "no token emitted yet on the current line" and `lic` = "the current
line started with a `#` punctuator", a `StringLit` whose first byte is `<`
is allowed only when `lic` is set. -/
def okTokensB : Bool → Bool → List Token → Bool
  | _, _, [] => true
  | _, _, .eol :: ts => okTokensB true false ts
  | als, lic, .punct .hash :: ts => okTokensB false (lic || als) ts
  | _, lic, .stringLit bs :: ts =>
    (if bs.head? = some 60 then lic else true) && okTokensB false lic ts
  | _, lic, _ :: ts => okTokensB false lic ts

/-! ## Claim theorems -/

/-- C1: refuted by the code. The splice stage appends
`trivial.take(len - 2) ++ [true, true]`, but `bstr`'s `lines()` does not
include the newline in the line text, so the two `true` flags land on the
backslash *and the byte before it*. On the spec's own example
`"a b\\\nc\n"` the pipeline materializes `"a c\n"` (the `b` is lost), not
`"a bc\n"`, and the token stream is `Ident "a", Ident "c", Eol, Eof`. -/
theorem c1_splice_drops_byte_before_backslash :
    materializeInput (bytes "a b\\\nc\n") = some (bytes "a c\n") ∧
    lexBytes (bytes "a c\n") =
      .ok [.ident (bytes "a"), .ident (bytes "c"), .eol, .eof] := by
  constructor <;> rfl

/-- C2: refuted by the code. `scan_string_lit` rejects *any* opener whose
following byte is `:` or `%` (the digraph guard is not restricted to `<`),
and the fallback then calls `scan_punct` with first byte `"` (or `'`),
which reaches `unreachable!("impossible punctuation")`. Input `"\":\n"`
panics instead of producing a token stream. -/
theorem c2_quote_colon_panics :
    lexBytes (bytes "\":\n") = .error .panic := by rfl

/-- C3: refuted by the code. In `scan_punct`, when the bytes after `%:` do
not continue as `%:%:`, the `:` has already been consumed but control falls
through to the main table, which emits `Percent`; the digraph `%:` is never
mapped to `Hash`. Input `"%:\n"` yields `Percent, Eol, Eof`. -/
theorem c3_percent_colon_is_not_hash :
    lexBytes (bytes "%:\n") = .ok [.punct .percent, .eol, .eof] := by rfl

/-- C4: refuted by the code. A physical line consisting of the single byte
`\\` makes `merge_escaped_newlines` evaluate `line.trivial.len() - 2` with
`len = 1`: the `usize` subtraction underflows, so the program panics (debug
profile) or, with wrapping, produces `|trivial| = |text| + 2` — in either
case length coherence does not survive the splice phase. -/
theorem c4_single_backslash_line_breaks_splice :
    mergeEscapedNewlines (splitLines (bytes "\\\n")) = none := by rfl

/-- C5 counterexample: `delete_comments` is not idempotent. For input
`"//\"\n\"//x\n"`, the first pass leaves a trivialized `"` (from the line
comment) and an unterminated string on the second line; on the second pass
the trivialized `"` toggles the string state, the carried-over string state
then closes at the start of the next line, and the `//x` that the first
pass emitted verbatim is stripped as a line comment. -/
theorem c5_delete_comments_not_idempotent :
    Option.bind (deleteComments (splitLines (bytes "//\"\n\"//x\n"))) deleteComments ≠
      deleteComments (splitLines (bytes "//\"\n\"//x\n")) := by decide

/-- C6 counterexample: the splice phase is not idempotent. For input
`"a\\\n\nb\n"` the backslash line is merged with the following empty line,
so the merged logical line still ends with the byte `\\`; a second
application of `merge_escaped_newlines` then merges it with the line `"b"`,
shrinking the sequence from two lines to one. -/
theorem c6_merge_not_idempotent :
    Option.bind (mergeEscapedNewlines (splitLines (bytes "a\\\n\nb\n")))
        mergeEscapedNewlines ≠
      mergeEscapedNewlines (splitLines (bytes "a\\\n\nb\n")) := by decide

/-- C7 counterexample: a finalized line can carry a byte with
`synthetic = true ∧ trivial = true`. In `"/**///\n"` the block comment is
replaced by a synthetic space; when the following `//` opener is
recognized, `backtrack(2)` skips the trivial comment bytes and flips that
synthetic space to trivial, and the line is then finalized in that state. -/
theorem c7_finalized_line_has_trivial_synthetic_byte :
    (pipelineLines (bytes "/**///\n")).map hasTrivialSyntheticByte = some true := by
  rfl

/-- C9 counterexample: the in-string state does *not* reset at end of line.
Processing `"\"\n/**/\n"` ends line 1 inside a string; line 2 is then
processed in the InString state and `/**/` is emitted verbatim, whereas the
same line fed to the pass alone (i.e. starting from Normal, as the claim
asserts) is stripped to a synthetic space. -/
theorem c9_in_string_persists_across_lines :
    deleteComments (splitLines (bytes "\"\n/**/\n")) =
      some [⟨[34], [false], [false]⟩,
            ⟨[47, 42, 42, 47], [false, false, false, false],
             [false, false, false, false]⟩] ∧
    deleteComments (splitLines (bytes "/**/\n")) =
      some [⟨[47, 42, 32, 42, 47], [true, true, false, true, true],
             [false, false, true, false, false]⟩] := by
  constructor <;> rfl

/-- C10 counterexample: an input whose last byte *is* a newline on which
`next()` still fails to terminate. In `"\"\\\n"` the string scan treats
`\\` + `\n` as a two-byte escape, moving past the final newline; from then
on `get()` returns `None` and the catch-all arm `_ => self.move_on()`
advances `pos` forever. -/
theorem c10_escaped_final_newline_diverges :
    lexBytes (bytes "\"\\\n") = .error .diverge := by rfl

/-! ### Splice identity on sequences without trailing backslashes (C6) -/

theorem mergeGo_id_of_no_backslash (L : List Line)
    (h : ∀ l ∈ L, endsBackslash l.text = false) :
    mergeGo L emptyLine = some L := by
  induction L with
  | nil => rfl
  | cons l ls ih =>
    have hl := h l (List.mem_cons_self l ls)
    have hls : ∀ x ∈ ls, endsBackslash x.text = false :=
      fun x hx => h x (List.mem_cons_of_mem _ hx)
    have ih' : mergeGo ls ⟨[], [], []⟩ = some ls := ih hls
    simp [mergeGo, hl, emptyLine, ih']

/-- C6 amended: the splice phase is the identity — hence idempotent — on
line sequences in which no line's text ends with the backslash byte. (In
general it is not idempotent: see the counterexample, where a backslash
line merged with a following empty line still ends in `\\` and is spliced
again by a second application.) -/
theorem c6_merge_id_without_trailing_backslash (L : List Line)
    (h : ∀ l ∈ L, endsBackslash l.text = false) :
    mergeEscapedNewlines L = some L ∧
    Option.bind (mergeEscapedNewlines L) mergeEscapedNewlines =
      mergeEscapedNewlines L := by
  have h1 : mergeEscapedNewlines L = some L := mergeGo_id_of_no_backslash L h
  refine ⟨h1, ?_⟩
  rw [h1, Option.some_bind, h1]

theorem c6_merge_id_without_trailing_backslash_witness :
    mergeEscapedNewlines [⟨bytes "ab", [false, false], [false, false]⟩] =
      some [⟨bytes "ab", [false, false], [false, false]⟩] ∧
    Option.bind
        (mergeEscapedNewlines [⟨bytes "ab", [false, false], [false, false]⟩])
        mergeEscapedNewlines =
      mergeEscapedNewlines [⟨bytes "ab", [false, false], [false, false]⟩] :=
  c6_merge_id_without_trailing_backslash
    [⟨bytes "ab", [false, false], [false, false]⟩] (by decide)

/-! ### End-of-line behaviour of the comment state machine (C9) -/

theorem shouldEmit_newline_in_string (c : CommentState) :
    ((shouldEmit 10 c).2).in_string = c.in_string := by
  unfold shouldEmit
  split_ifs <;> simp_all

theorem shouldEmit_newline_in_line (c : CommentState)
    (h : c.in_string = true → c.in_line_comment = false) :
    ((shouldEmit 10 c).2).in_line_comment = false := by
  unfold shouldEmit
  split_ifs with h1 h2 h3 h4 h5 h6 h7 h8 <;>
    first
      | rfl
      | (exact h h1)
      | simp_all

theorem shouldEmit_stOk (ch : Nat) (c : CommentState)
    (h : c.in_string = true → c.in_line_comment = false) :
    ((shouldEmit ch c).2).in_string = true →
      ((shouldEmit ch c).2).in_line_comment = false := by
  unfold shouldEmit
  split_ifs <;> simp_all

theorem charStep_some (b : Line) (c : CommentState) (i : CharInfo)
    (e : EmitR) (c' : CommentState) (he : shouldEmit i.ch c = (some e, c')) :
    charStep b c i = (backtrack (b.push i) e.pop_count).map fun b' =>
      (if e.ch ≠ i.ch then b'.push ⟨e.ch, false, true⟩ else b',
       if !i.trivial then { c' with prev_char := i.ch } else c') := by
  unfold charStep
  rw [he]

theorem charStep_none (b : Line) (c : CommentState) (i : CharInfo)
    (c' : CommentState) (he : shouldEmit i.ch c = (none, c')) :
    charStep b c i = (setLastTrivial (b.push i)).map fun b' =>
      (b', if !i.trivial then { c' with prev_char := i.ch } else c') := by
  unfold charStep
  rw [he]

theorem eolStep_some (b : Line) (c : CommentState)
    (e : EmitR) (c' : CommentState) (he : shouldEmit 10 c = (some e, c')) :
    eolStep b c = (backtrack b e.pop_count).map fun b' =>
      (if e.ch ≠ 10 then b'.push ⟨e.ch, false, true⟩ else b',
       { c' with prev_char := 10 }) := by
  unfold eolStep
  rw [he]

theorem eolStep_none (b : Line) (c : CommentState)
    (c' : CommentState) (he : shouldEmit 10 c = (none, c')) :
    eolStep b c = (setLastTrivial b).map fun b' =>
      (b', { c' with prev_char := 10 }) := by
  unfold eolStep
  rw [he]

theorem charStep_state (b : Line) (c : CommentState) (i : CharInfo)
    (r : Line × CommentState) (hr : charStep b c i = some r) :
    r.2 = (shouldEmit i.ch c).2 ∨
    r.2 = { (shouldEmit i.ch c).2 with prev_char := i.ch } := by
  rcases he : shouldEmit i.ch c with ⟨oe, c'⟩
  cases oe with
  | some e =>
    rw [charStep_some b c i e c' he, Option.map_eq_some'] at hr
    obtain ⟨b', _, hb⟩ := hr
    rw [← hb]
    by_cases ht : i.trivial <;> simp [ht]
  | none =>
    rw [charStep_none b c i c' he, Option.map_eq_some'] at hr
    obtain ⟨b', _, hb⟩ := hr
    rw [← hb]
    by_cases ht : i.trivial <;> simp [ht]

theorem charStep_stOk (b : Line) (c : CommentState) (i : CharInfo)
    (r : Line × CommentState)
    (h : c.in_string = true → c.in_line_comment = false)
    (hr : charStep b c i = some r) :
    r.2.in_string = true → r.2.in_line_comment = false := by
  have hs := shouldEmit_stOk i.ch c h
  rcases charStep_state b c i r hr with h2 | h2 <;> rw [h2] <;> exact hs

theorem foldl_charStep_stOk (is : List CharInfo) :
    ∀ (b : Line) (c : CommentState) (r : Line × CommentState),
    (is.foldlM (fun (p : Line × CommentState) i => charStep p.1 p.2 i) (b, c)) = some r →
    (c.in_string = true → c.in_line_comment = false) →
    (r.2.in_string = true → r.2.in_line_comment = false) := by
  induction is with
  | nil =>
    intro b c r hr h
    simp only [List.foldlM] at hr
    cases hr
    exact h
  | cons i is ih =>
    intro b c r hr h
    simp only [List.foldlM_cons] at hr
    cases hc : charStep b c i with
    | none => rw [hc] at hr; exact Option.noConfusion hr
    | some p =>
      rw [hc] at hr
      have hr' : is.foldlM (fun (p : Line × CommentState) i => charStep p.1 p.2 i) p = some r := hr
      exact ih p.1 p.2 r hr' (charStep_stOk b c i p h hc)

theorem eolStep_state (b : Line) (c : CommentState)
    (r : Line × CommentState) (hr : eolStep b c = some r) :
    r.2 = { (shouldEmit 10 c).2 with prev_char := 10 } := by
  rcases he : shouldEmit 10 c with ⟨oe, c'⟩
  cases oe with
  | some e =>
    rw [eolStep_some b c e c' he, Option.map_eq_some'] at hr
    obtain ⟨b', _, hb⟩ := hr
    rw [← hb]
  | none =>
    rw [eolStep_none b c c' he, Option.map_eq_some'] at hr
    obtain ⟨b', _, hb⟩ := hr
    rw [← hb]

/-- C9 amended: at the end of every line the virtual `\n` either closes a
line comment or is refused, so a finalized line never leaves
`InLineComment` behind — but the end-of-line step never touches
`in_string`: a line whose processing ends inside a string hands the
InString state to the next line unchanged (only `prev_char` is reset). -/
theorem c9_eol_resets_line_comment_not_string :
    (∀ (b : Line) (c : CommentState) (l : Line) (r : Line × CommentState),
      (c.in_string = true → c.in_line_comment = false) →
      processLine b c l = some r → r.2.in_line_comment = false) ∧
    (∀ (b : Line) (c : CommentState) (r : Line × CommentState),
      eolStep b c = some r → r.2.in_string = c.in_string) := by
  constructor
  · intro b c l r h hr
    unfold processLine at hr
    cases hf : l.chars.foldlM
        (fun (p : Line × CommentState) i => charStep p.1 p.2 i) (b, c) with
    | none => rw [hf] at hr; exact Option.noConfusion hr
    | some p =>
      rw [hf] at hr
      have hr' : eolStep p.1 p.2 = some r := hr
      have hst := foldl_charStep_stOk l.chars b c p hf h
      rw [eolStep_state p.1 p.2 r hr']
      simpa using shouldEmit_newline_in_line p.2 hst
  · intro b c r hr
    rw [eolStep_state b c r hr]
    simpa using shouldEmit_newline_in_string c

/-! ### Basic lexer-state lemmas (shared by C8 and C10) -/

theorem moveOn_pos (input : List Nat) (s : LexState) :
    (moveOn input s).pos = s.pos + 1 := by
  simp only [moveOn]
  split_ifs <;> rfl

theorem cur_lt (input : List Nat) (s : LexState) (c : Nat)
    (h : cur input s = some c) : s.pos < input.length := by
  unfold cur at h
  by_contra hge
  rw [List.getElem?_eq_none (Nat.le_of_not_lt hge)] at h
  exact Option.noConfusion h

theorem moveOn_flags (input : List Nat) (s : LexState) (c : Nat)
    (h : cur input s = some c) (h10 : c ≠ 10) :
    (moveOn input s).at_line_start = s.at_line_start ∧
      (moveOn input s).in_directive = s.in_directive := by
  simp only [moveOn]
  rw [h, if_neg (by simpa using h10)]
  exact ⟨rfl, rfl⟩

theorem moveOn_flags_10 (input : List Nat) (s : LexState)
    (h : cur input s = some 10) :
    (moveOn input s).at_line_start = true ∧ (moveOn input s).in_directive = false := by
  simp only [moveOn]
  rw [h, if_pos rfl]
  exact ⟨rfl, rfl⟩

theorem moveOn_inDir_mono (input : List Nat) (s : LexState)
    (h : (moveOn input s).in_directive = true) : s.in_directive = true := by
  simp only [moveOn] at h
  split_ifs at h with hc
  all_goals simp_all

theorem endToken_parts (s : LexState) (t : Token) :
    (endToken s t).1 = t ∧ (endToken s t).2.pos = s.pos ∧
    (endToken s t).2.at_line_start = false ∧
    ((endToken s t).2.in_directive =
      if s.at_line_start = true ∧ t.isHash = true then true else s.in_directive) := by
  unfold endToken
  split_ifs with h
  · exact ⟨rfl, rfl, rfl, rfl⟩
  · exact ⟨rfl, rfl, rfl, rfl⟩

theorem isWsByte_ne10 (c : Nat) (h : isWsByte c = true) : c ≠ 10 := by
  simp [isWsByte] at h
  omega

theorem isIdentByte_ne10 (c : Nat) (h : isIdentByte c = true) : c ≠ 10 := by
  simp [isIdentByte] at h
  omega

theorem isNumContByte_ne10 (c : Nat) (h : isNumContByte c = true) : c ≠ 10 := by
  simp [isNumContByte, isDigit] at h
  omega

theorem isExpByte_ne10 (c : Nat) (h : isExpByte c = true) : c ≠ 10 := by
  simp [isExpByte] at h
  omega

theorem skipWs_succ_some (input : List Nat) (fuel : Nat) (s : LexState) (c : Nat)
    (hc : cur input s = some c) :
    skipWs input (fuel + 1) s =
      if isWsByte c then skipWs input fuel (moveOn input s)
      else if c = 10 then (moveOn input s, true) else (s, false) := by
  conv_lhs => unfold skipWs
  rw [hc]

theorem skipWs_succ_none (input : List Nat) (fuel : Nat) (s : LexState)
    (hc : cur input s = none) : skipWs input (fuel + 1) s = (s, false) := by
  conv_lhs => unfold skipWs
  rw [hc]

theorem skipWs_false (input : List Nat) (fuel : Nat) :
    ∀ (s s₁ : LexState), skipWs input fuel s = (s₁, false) →
    s₁.at_line_start = s.at_line_start ∧ s₁.in_directive = s.in_directive ∧
      s.pos ≤ s₁.pos := by
  induction fuel with
  | zero =>
    intro s s₁ h
    injection h with h1 h2
    rw [← h1]
    exact ⟨rfl, rfl, Nat.le_refl _⟩
  | succ fuel ih =>
    intro s s₁ h
    cases hc : cur input s with
    | none =>
      rw [skipWs_succ_none input fuel s hc] at h
      injection h with h1 h2
      rw [← h1]
      exact ⟨rfl, rfl, Nat.le_refl _⟩
    | some c =>
      rw [skipWs_succ_some input fuel s c hc] at h
      by_cases hw : isWsByte c
      · rw [if_pos hw] at h
        obtain ⟨h1, h2, h3⟩ := ih (moveOn input s) s₁ h
        obtain ⟨f1, f2⟩ := moveOn_flags input s c hc (isWsByte_ne10 c hw)
        exact ⟨h1.trans f1, h2.trans f2, by rw [moveOn_pos] at h3; omega⟩
      · rw [if_neg hw] at h
        by_cases h10 : c = 10
        · rw [if_pos h10] at h
          injection h with h1 h2
          exact Bool.noConfusion h2
        · rw [if_neg h10] at h
          injection h with h1 h2
          rw [← h1]
          exact ⟨rfl, rfl, Nat.le_refl _⟩

theorem skipWs_true (input : List Nat) (fuel : Nat) :
    ∀ (s s₁ : LexState), skipWs input fuel s = (s₁, true) →
    s₁.at_line_start = true ∧ s₁.in_directive = false ∧
      s.pos < s₁.pos ∧ s₁.pos ≤ input.length := by
  induction fuel with
  | zero =>
    intro s s₁ h
    injection h with h1 h2
    exact Bool.noConfusion h2
  | succ fuel ih =>
    intro s s₁ h
    cases hc : cur input s with
    | none =>
      rw [skipWs_succ_none input fuel s hc] at h
      injection h with h1 h2
      exact Bool.noConfusion h2
    | some c =>
      rw [skipWs_succ_some input fuel s c hc] at h
      by_cases hw : isWsByte c
      · rw [if_pos hw] at h
        obtain ⟨h1, h2, h3, h4⟩ := ih (moveOn input s) s₁ h
        refine ⟨h1, h2, ?_, h4⟩
        rw [moveOn_pos] at h3
        omega
      · rw [if_neg hw] at h
        by_cases h10 : c = 10
        · rw [if_pos h10] at h
          injection h with h1 h2
          subst h10
          obtain ⟨f1, f2⟩ := moveOn_flags_10 input s hc
          have hlt := cur_lt input s 10 hc
          rw [← h1]
          exact ⟨f1, f2, by rw [moveOn_pos]; omega, by rw [moveOn_pos]; omega⟩
        · rw [if_neg h10] at h
          injection h with h1 h2
          exact Bool.noConfusion h2

theorem identLoop_succ_some (input : List Nat) (fuel : Nat) (s : LexState) (c : Nat)
    (hc : cur input s = some c) :
    identLoop input (fuel + 1) s =
      if isIdentByte c then identLoop input fuel (moveOn input s) else s := by
  conv_lhs => unfold identLoop
  rw [hc]

theorem identLoop_succ_none (input : List Nat) (fuel : Nat) (s : LexState)
    (hc : cur input s = none) : identLoop input (fuel + 1) s = s := by
  conv_lhs => unfold identLoop
  rw [hc]

theorem identLoop_facts (input : List Nat) (fuel : Nat) :
    ∀ (s : LexState), s.pos ≤ input.length →
    (identLoop input fuel s).pos ≤ input.length ∧
    s.pos ≤ (identLoop input fuel s).pos ∧
    (identLoop input fuel s).at_line_start = s.at_line_start ∧
    (identLoop input fuel s).in_directive = s.in_directive := by
  induction fuel with
  | zero => intro s hs; exact ⟨hs, Nat.le_refl _, rfl, rfl⟩
  | succ fuel ih =>
    intro s hs
    cases hc : cur input s with
    | none =>
      rw [identLoop_succ_none input fuel s hc]
      exact ⟨hs, Nat.le_refl _, rfl, rfl⟩
    | some c =>
      rw [identLoop_succ_some input fuel s c hc]
      by_cases hi : isIdentByte c
      · rw [if_pos hi]
        have hlt := cur_lt input s c hc
        obtain ⟨h1, h2, h3, h4⟩ := ih (moveOn input s) (by rw [moveOn_pos]; omega)
        obtain ⟨f1, f2⟩ := moveOn_flags input s c hc (isIdentByte_ne10 c hi)
        exact ⟨h1, by rw [moveOn_pos] at h2; omega, h3.trans f1, h4.trans f2⟩
      · rw [if_neg hi]
        exact ⟨hs, Nat.le_refl _, rfl, rfl⟩

theorem numLoop_succ_some (input : List Nat) (fuel : Nat) (s : LexState) (c : Nat)
    (hc : cur input s = some c) :
    numLoop input (fuel + 1) s =
      if isNumContByte c then numLoop input fuel (moveOn input s)
      else if isExpByte c then
        if cur input (moveOn input s) = some 43 ∨ cur input (moveOn input s) = some 45 then
          numLoop input fuel (moveOn input (moveOn input s))
        else numLoop input fuel (moveOn input s)
      else s := by
  conv_lhs => unfold numLoop
  rw [hc]

theorem numLoop_succ_none (input : List Nat) (fuel : Nat) (s : LexState)
    (hc : cur input s = none) : numLoop input (fuel + 1) s = s := by
  conv_lhs => unfold numLoop
  rw [hc]

theorem numLoop_facts (input : List Nat) (fuel : Nat) :
    ∀ (s : LexState), s.pos ≤ input.length →
    (numLoop input fuel s).pos ≤ input.length ∧
    s.pos ≤ (numLoop input fuel s).pos ∧
    (numLoop input fuel s).at_line_start = s.at_line_start ∧
    (numLoop input fuel s).in_directive = s.in_directive := by
  induction fuel with
  | zero => intro s hs; exact ⟨hs, Nat.le_refl _, rfl, rfl⟩
  | succ fuel ih =>
    intro s hs
    cases hc : cur input s with
    | none =>
      rw [numLoop_succ_none input fuel s hc]
      exact ⟨hs, Nat.le_refl _, rfl, rfl⟩
    | some c =>
      rw [numLoop_succ_some input fuel s c hc]
      have hlt := cur_lt input s c hc
      by_cases hn : isNumContByte c
      · rw [if_pos hn]
        obtain ⟨h1, h2, h3, h4⟩ := ih (moveOn input s) (by rw [moveOn_pos]; omega)
        obtain ⟨f1, f2⟩ := moveOn_flags input s c hc (isNumContByte_ne10 c hn)
        exact ⟨h1, by rw [moveOn_pos] at h2; omega, h3.trans f1, h4.trans f2⟩
      · rw [if_neg hn]
        by_cases he : isExpByte c
        · rw [if_pos he]
          obtain ⟨f1, f2⟩ := moveOn_flags input s c hc (isExpByte_ne10 c he)
          have hp1 : (moveOn input s).pos ≤ input.length := by rw [moveOn_pos]; omega
          by_cases hsign : cur input (moveOn input s) = some 43 ∨
              cur input (moveOn input s) = some 45
          · rw [if_pos hsign]
            have hlt2 : (moveOn input s).pos < input.length := by
              rcases hsign with h2 | h2 <;> exact cur_lt input (moveOn input s) _ h2
            have hg : (moveOn input (moveOn input s)).at_line_start =
                (moveOn input s).at_line_start ∧
                (moveOn input (moveOn input s)).in_directive =
                (moveOn input s).in_directive := by
              rcases hsign with h2 | h2 <;>
                exact moveOn_flags input (moveOn input s) _ h2 (by omega)
            obtain ⟨g1, g2⟩ := hg
            obtain ⟨h1, h2, h3, h4⟩ := ih (moveOn input (moveOn input s))
              (by rw [moveOn_pos]; omega)
            refine ⟨h1, ?_, (h3.trans g1).trans f1, (h4.trans g2).trans f2⟩
            rw [moveOn_pos, moveOn_pos] at h2
            omega
          · rw [if_neg hsign]
            obtain ⟨h1, h2, h3, h4⟩ := ih (moveOn input s) hp1
            exact ⟨h1, by rw [moveOn_pos] at h2; omega, h3.trans f1, h4.trans f2⟩
        · rw [if_neg he]
          exact ⟨hs, Nat.le_refl _, rfl, rfl⟩

theorem slice_head (input : List Nat) (start stop : Nat) (h : start < stop) :
    (slice input start stop).head? = input[start]? := by
  unfold slice
  rw [List.head?_eq_getElem?, List.getElem?_take, if_pos (by omega),
    List.getElem?_drop]
  simp

theorem strLoop_succ_some (input : List Nat) (first terminator start fuel : Nat)
    (s : LexState) (c : Nat) (hc : cur input s = some c) :
    strLoop input first terminator start (fuel + 1) s =
      if c = terminator then
        .ok (some (endToken (moveOn input s)
          (.stringLit (slice input start (moveOn input s).pos))))
      else if c = 92 ∧ first ≠ 60 then
        strLoop input first terminator start fuel (moveOn input (moveOn input s))
      else if c = 10 then
        if first = 60 then .ok none
        else .ok (some (endToken s (.other (slice input start s.pos))))
      else strLoop input first terminator start fuel (moveOn input s) := by
  conv_lhs => unfold strLoop
  rw [hc]

theorem strLoop_succ_none (input : List Nat) (first terminator start fuel : Nat)
    (s : LexState) (hc : cur input s = none) :
    strLoop input first terminator start (fuel + 1) s = .error .diverge := by
  conv_lhs => unfold strLoop
  rw [hc]

theorem strLoop_ok (input : List Nat) (first terminator start : Nat) (fuel : Nat) :
    ∀ (s : LexState) (t : Token) (s' : LexState), start ≤ s.pos →
    strLoop input first terminator start fuel s = .ok (some (t, s')) →
    s.pos ≤ s'.pos ∧ s'.pos ≤ input.length ∧ s'.at_line_start = false ∧
    (s'.in_directive = true → s.in_directive = true) ∧
    (∀ bs, t = .stringLit bs → bs = slice input start s'.pos ∧ start < s'.pos) ∧
    t ≠ .eol := by
  induction fuel with
  | zero => intro s t s' _ h; exact Except.noConfusion h
  | succ fuel ih =>
    intro s t s' hst h
    cases hc : cur input s with
    | none =>
      rw [strLoop_succ_none input first terminator start fuel s hc] at h
      exact Except.noConfusion h
    | some c =>
      have hlt := cur_lt input s c hc
      rw [strLoop_succ_some input first terminator start fuel s c hc] at h
      split_ifs at h with h1 h2 h3 h4
      · injection h with h'
        injection h' with h''
        obtain ⟨e1, e2, e3, e4⟩ := endToken_parts (moveOn input s)
          (.stringLit (slice input start (moveOn input s).pos))
        have ht : t = (endToken (moveOn input s)
            (.stringLit (slice input start (moveOn input s).pos))).1 :=
          (congrArg Prod.fst h'').symm
        have hs' : s' = (endToken (moveOn input s)
            (.stringLit (slice input start (moveOn input s).pos))).2 :=
          (congrArg Prod.snd h'').symm
        rw [e1] at ht
        refine ⟨?_, ?_, ?_, ?_, ?_, ?_⟩
        · rw [hs', e2, moveOn_pos]; omega
        · rw [hs', e2, moveOn_pos]; omega
        · rw [hs', e3]
        · intro hd
          rw [hs', e4] at hd
          split_ifs at hd with hcond
          · simp [Token.isHash] at hcond
          · exact moveOn_inDir_mono input s hd
        · intro bs hbs
          rw [ht] at hbs
          injection hbs with hbs'
          rw [← hbs', hs', e2, moveOn_pos]
          exact ⟨rfl, by omega⟩
        · rw [ht]
          exact fun hx => Token.noConfusion hx
      · obtain ⟨g1, g2, g3, g4, g5, g6⟩ := ih (moveOn input (moveOn input s)) t s'
          (by rw [moveOn_pos, moveOn_pos]; omega) h
        rw [moveOn_pos, moveOn_pos] at g1
        refine ⟨by omega, g2, g3, ?_, g5, g6⟩
        intro hd
        exact moveOn_inDir_mono input s
          (moveOn_inDir_mono input (moveOn input s) (g4 hd))
      · exact Option.noConfusion (Except.ok.inj h)
      · injection h with h'
        injection h' with h''
        obtain ⟨e1, e2, e3, e4⟩ := endToken_parts s (.other (slice input start s.pos))
        have ht : t = (endToken s (.other (slice input start s.pos))).1 :=
          (congrArg Prod.fst h'').symm
        have hs' : s' = (endToken s (.other (slice input start s.pos))).2 :=
          (congrArg Prod.snd h'').symm
        rw [e1] at ht
        refine ⟨by rw [hs', e2], by rw [hs', e2]; omega, by rw [hs', e3], ?_, ?_, ?_⟩
        · intro hd
          rw [hs', e4] at hd
          split_ifs at hd with hcond
          · simp [Token.isHash] at hcond
          · exact hd
        · intro bs hbs
          rw [ht] at hbs
          exact Token.noConfusion hbs
        · rw [ht]
          exact fun hx => Token.noConfusion hx
      · obtain ⟨g1, g2, g3, g4, g5, g6⟩ := ih (moveOn input s) t s'
          (by rw [moveOn_pos]; omega) h
        rw [moveOn_pos] at g1
        refine ⟨by omega, g2, g3, ?_, g5, g6⟩
        intro hd
        exact moveOn_inDir_mono input s (g4 hd)

theorem scanStringLit_some_eq (input : List Nat) (s : LexState) (first : Nat)
    (hc : cur input s = some first) :
    scanStringLit input s =
      if first = 34 ∨ first = 39 ∨ first = 60 then
        if cur input (moveOn input s) = some 58 ∨ cur input (moveOn input s) = some 37 then
          .ok none
        else
          strLoop input first (if first = 34 then 34 else if first = 39 then 39 else 62)
            s.pos (input.length + 1) (moveOn input s)
      else .error .panic := by
  unfold scanStringLit
  rw [hc]

theorem scanStringLit_ok (input : List Nat) (s : LexState) (t : Token) (s' : LexState)
    (h : scanStringLit input s = .ok (some (t, s'))) :
    s.pos < s'.pos ∧ s'.pos ≤ input.length ∧ s'.at_line_start = false ∧
    (s'.in_directive = true → s.in_directive = true) ∧
    (∀ bs, t = .stringLit bs → bs.head? = cur input s) ∧ t ≠ .eol := by
  cases hc : cur input s with
  | none =>
    unfold scanStringLit at h
    rw [hc] at h
    exact Except.noConfusion h
  | some first =>
    rw [scanStringLit_some_eq input s first hc] at h
    generalize (if first = 34 then (34 : Nat) else if first = 39 then 39 else 62) =
      term at h
    split_ifs at h with h1 h2
    · exact Option.noConfusion (Except.ok.inj h)
    · have hmv : s.pos ≤ (moveOn input s).pos := by rw [moveOn_pos]; omega
      obtain ⟨g1, g2, g3, g4, g5, g6⟩ := strLoop_ok input first term s.pos
        (input.length + 1) (moveOn input s) t s' hmv h
      rw [moveOn_pos] at g1
      refine ⟨by omega, g2, g3, ?_, ?_, g6⟩
      · intro hd
        exact moveOn_inDir_mono input s (g4 hd)
      · intro bs hbs
        obtain ⟨hb1, hb2⟩ := g5 bs hbs
        rw [hb1, slice_head input s.pos s'.pos hb2]
        exact hc

theorem isHash_eq (t : Token) (h : t.isHash = true) : t = .punct .hash := by
  cases t with
  | punct p => cases p <;> simp_all [Token.isHash]
  | _ => simp_all [Token.isHash]

theorem cur_moveOn_eq_peek (input : List Nat) (s : LexState) :
    cur input (moveOn input s) = peek input s := by
  unfold cur peek
  rw [moveOn_pos]

theorem punct_leaf (input : List Nat) (s₀ X : LexState) (p : Punct)
    (t : Token) (s' : LexState)
    (h : (Except.ok (endToken X (.punct p)) : Except LexAbort (Token × LexState)) =
      .ok (t, s'))
    (hpos : s₀.pos ≤ X.pos) (hlen : X.pos ≤ input.length)
    (hals : X.at_line_start = s₀.at_line_start)
    (hdir : X.in_directive = s₀.in_directive) :
    punctFacts input s₀ t s' := by
  injection h with h'
  have ht : t = (endToken X (.punct p)).1 := (congrArg Prod.fst h').symm
  have hs' : s' = (endToken X (.punct p)).2 := (congrArg Prod.snd h').symm
  obtain ⟨e1, e2, e3, e4⟩ := endToken_parts X (.punct p)
  rw [e1] at ht
  refine ⟨by rw [hs', e2]; omega, by rw [hs', e2]; omega, by rw [hs', e3], ?_, ?_, ?_⟩
  · intro hd
    rw [hs', e4] at hd
    split_ifs at hd with hcond
    · right
      refine ⟨by rw [← hals]; exact hcond.1, ?_⟩
      rw [ht, isHash_eq (.punct p) hcond.2]
    · left
      rw [← hdir]
      exact hd
  · intro bs
    rw [ht]
    exact fun hx => Token.noConfusion hx
  · rw [ht]
    exact fun hx => Token.noConfusion hx

theorem punct_leaf0 (input : List Nat) (s : LexState) (p : Punct)
    (t : Token) (s' : LexState)
    (h : (Except.ok (endToken s (.punct p)) : Except LexAbort (Token × LexState)) =
      .ok (t, s'))
    (hlen : s.pos ≤ input.length) : punctFacts input s t s' :=
  punct_leaf input s s p t s' h (Nat.le_refl _) hlen rfl rfl

theorem punct_leaf1 (input : List Nat) (s : LexState) (p : Punct)
    (t : Token) (s' : LexState) (k : Nat)
    (h : (Except.ok (endToken (moveOn input s) (.punct p)) :
      Except LexAbort (Token × LexState)) = .ok (t, s'))
    (hx : cur input s = some k) (hk : k ≠ 10) : punctFacts input s t s' := by
  have hlt := cur_lt input s k hx
  obtain ⟨f1, f2⟩ := moveOn_flags input s k hx hk
  exact punct_leaf input s (moveOn input s) p t s' h (by rw [moveOn_pos]; omega)
    (by rw [moveOn_pos]; omega) f1 f2

theorem punct_leaf2 (input : List Nat) (s : LexState) (p : Punct)
    (t : Token) (s' : LexState) (k₁ k₂ : Nat)
    (h : (Except.ok (endToken (moveOn input (moveOn input s)) (.punct p)) :
      Except LexAbort (Token × LexState)) = .ok (t, s'))
    (hx₁ : cur input s = some k₁) (hk₁ : k₁ ≠ 10)
    (hx₂ : cur input (moveOn input s) = some k₂) (hk₂ : k₂ ≠ 10) :
    punctFacts input s t s' := by
  have hlt₁ := cur_lt input s k₁ hx₁
  have hlt₂ := cur_lt input (moveOn input s) k₂ hx₂
  obtain ⟨f1, f2⟩ := moveOn_flags input s k₁ hx₁ hk₁
  obtain ⟨g1, g2⟩ := moveOn_flags input (moveOn input s) k₂ hx₂ hk₂
  rw [moveOn_pos] at hlt₂
  exact punct_leaf input s (moveOn input (moveOn input s)) p t s' h
    (by rw [moveOn_pos, moveOn_pos]; omega) (by rw [moveOn_pos, moveOn_pos]; omega)
    (g1.trans f1) (g2.trans f2)

theorem punctFacts_compose (input : List Nat) (s₀ sₑ : LexState)
    (t : Token) (s' : LexState) (h : punctFacts input sₑ t s')
    (hpos : s₀.pos ≤ sₑ.pos) (hals : sₑ.at_line_start = s₀.at_line_start)
    (hdir : sₑ.in_directive = s₀.in_directive) : punctFacts input s₀ t s' := by
  obtain ⟨h1, h2, h3, h4, h5⟩ := h
  refine ⟨by omega, h2, h3, ?_, h5⟩
  intro hd
  rcases h4 hd with hl | ⟨ha, hh⟩
  · left; rw [← hdir]; exact hl
  · right; exact ⟨by rw [← hals]; exact ha, hh⟩

theorem mainPunct_facts (input : List Nat) (first : Nat) (s : LexState)
    (t : Token) (s' : LexState) (hlen : s.pos ≤ input.length)
    (h : mainPunct input first s = .ok (t, s')) : punctFacts input s t s' := by
  unfold mainPunct at h
  by_cases hb1 : first = 91
  · rw [if_pos hb1] at h
    exact punct_leaf0 input s _ t s' h hlen
  · rw [if_neg hb1] at h
    by_cases hb2 : first = 93
    · rw [if_pos hb2] at h
      exact punct_leaf0 input s _ t s' h hlen
    · rw [if_neg hb2] at h
      by_cases hb3 : first = 40
      · rw [if_pos hb3] at h
        exact punct_leaf0 input s _ t s' h hlen
      · rw [if_neg hb3] at h
        by_cases hb4 : first = 41
        · rw [if_pos hb4] at h
          exact punct_leaf0 input s _ t s' h hlen
        · rw [if_neg hb4] at h
          by_cases hb5 : first = 46
          · rw [if_pos hb5] at h
            by_cases hb6 : cur input s = some 46 ∧ peek input s = some 46
            · rw [if_pos hb6] at h
              exact punct_leaf2 input s _ t s' 46 46 h hb6.1 (by omega) (by rw [cur_moveOn_eq_peek]; exact hb6.2) (by omega)
            · rw [if_neg hb6] at h
              exact punct_leaf0 input s _ t s' h hlen
          · rw [if_neg hb5] at h
            by_cases hb7 : first = 45
            · rw [if_pos hb7] at h
              by_cases hb8 : cur input s = some 62
              · rw [if_pos hb8] at h
                exact punct_leaf1 input s _ t s' 62 h hb8 (by omega)
              · rw [if_neg hb8] at h
                by_cases hb9 : cur input s = some 45
                · rw [if_pos hb9] at h
                  exact punct_leaf1 input s _ t s' 45 h hb9 (by omega)
                · rw [if_neg hb9] at h
                  by_cases hb10 : cur input s = some 61
                  · rw [if_pos hb10] at h
                    exact punct_leaf1 input s _ t s' 61 h hb10 (by omega)
                  · rw [if_neg hb10] at h
                    exact punct_leaf0 input s _ t s' h hlen
            · rw [if_neg hb7] at h
              by_cases hb11 : first = 43
              · rw [if_pos hb11] at h
                by_cases hb12 : cur input s = some 43
                · rw [if_pos hb12] at h
                  exact punct_leaf1 input s _ t s' 43 h hb12 (by omega)
                · rw [if_neg hb12] at h
                  by_cases hb13 : cur input s = some 61
                  · rw [if_pos hb13] at h
                    exact punct_leaf1 input s _ t s' 61 h hb13 (by omega)
                  · rw [if_neg hb13] at h
                    exact punct_leaf0 input s _ t s' h hlen
              · rw [if_neg hb11] at h
                by_cases hb14 : first = 38
                · rw [if_pos hb14] at h
                  by_cases hb15 : cur input s = some 38
                  · rw [if_pos hb15] at h
                    exact punct_leaf1 input s _ t s' 38 h hb15 (by omega)
                  · rw [if_neg hb15] at h
                    by_cases hb16 : cur input s = some 61
                    · rw [if_pos hb16] at h
                      exact punct_leaf1 input s _ t s' 61 h hb16 (by omega)
                    · rw [if_neg hb16] at h
                      exact punct_leaf0 input s _ t s' h hlen
                · rw [if_neg hb14] at h
                  by_cases hb17 : first = 42
                  · rw [if_pos hb17] at h
                    by_cases hb18 : cur input s = some 61
                    · rw [if_pos hb18] at h
                      exact punct_leaf1 input s _ t s' 61 h hb18 (by omega)
                    · rw [if_neg hb18] at h
                      exact punct_leaf0 input s _ t s' h hlen
                  · rw [if_neg hb17] at h
                    by_cases hb19 : first = 126
                    · rw [if_pos hb19] at h
                      exact punct_leaf0 input s _ t s' h hlen
                    · rw [if_neg hb19] at h
                      by_cases hb20 : first = 33
                      · rw [if_pos hb20] at h
                        by_cases hb21 : cur input s = some 61
                        · rw [if_pos hb21] at h
                          exact punct_leaf1 input s _ t s' 61 h hb21 (by omega)
                        · rw [if_neg hb21] at h
                          exact punct_leaf0 input s _ t s' h hlen
                      · rw [if_neg hb20] at h
                        by_cases hb22 : first = 47
                        · rw [if_pos hb22] at h
                          by_cases hb23 : cur input s = some 61
                          · rw [if_pos hb23] at h
                            exact punct_leaf1 input s _ t s' 61 h hb23 (by omega)
                          · rw [if_neg hb23] at h
                            exact punct_leaf0 input s _ t s' h hlen
                        · rw [if_neg hb22] at h
                          by_cases hb24 : first = 37
                          · rw [if_pos hb24] at h
                            by_cases hb25 : cur input s = some 61
                            · rw [if_pos hb25] at h
                              exact punct_leaf1 input s _ t s' 61 h hb25 (by omega)
                            · rw [if_neg hb25] at h
                              exact punct_leaf0 input s _ t s' h hlen
                          · rw [if_neg hb24] at h
                            by_cases hb26 : first = 60
                            · rw [if_pos hb26] at h
                              by_cases hb27 : cur input s = some 61
                              · rw [if_pos hb27] at h
                                exact punct_leaf1 input s _ t s' 61 h hb27 (by omega)
                              · rw [if_neg hb27] at h
                                by_cases hb28 : cur input s = some 60
                                · rw [if_pos hb28] at h
                                  by_cases hb29 : cur input (moveOn input s) = some 61
                                  · rw [if_pos hb29] at h
                                    exact punct_leaf2 input s _ t s' 60 61 h hb28 (by omega) hb29 (by omega)
                                  · rw [if_neg hb29] at h
                                    exact punct_leaf1 input s _ t s' 60 h hb28 (by omega)
                                · rw [if_neg hb28] at h
                                  exact punct_leaf0 input s _ t s' h hlen
                            · rw [if_neg hb26] at h
                              by_cases hb30 : first = 62
                              · rw [if_pos hb30] at h
                                by_cases hb31 : cur input s = some 61
                                · rw [if_pos hb31] at h
                                  exact punct_leaf1 input s _ t s' 61 h hb31 (by omega)
                                · rw [if_neg hb31] at h
                                  by_cases hb32 : cur input s = some 62
                                  · rw [if_pos hb32] at h
                                    by_cases hb33 : cur input (moveOn input s) = some 61
                                    · rw [if_pos hb33] at h
                                      exact punct_leaf2 input s _ t s' 62 61 h hb32 (by omega) hb33 (by omega)
                                    · rw [if_neg hb33] at h
                                      exact punct_leaf1 input s _ t s' 62 h hb32 (by omega)
                                  · rw [if_neg hb32] at h
                                    exact punct_leaf0 input s _ t s' h hlen
                              · rw [if_neg hb30] at h
                                by_cases hb34 : first = 61
                                · rw [if_pos hb34] at h
                                  by_cases hb35 : cur input s = some 61
                                  · rw [if_pos hb35] at h
                                    exact punct_leaf1 input s _ t s' 61 h hb35 (by omega)
                                  · rw [if_neg hb35] at h
                                    exact punct_leaf0 input s _ t s' h hlen
                                · rw [if_neg hb34] at h
                                  by_cases hb36 : first = 94
                                  · rw [if_pos hb36] at h
                                    by_cases hb37 : cur input s = some 61
                                    · rw [if_pos hb37] at h
                                      exact punct_leaf1 input s _ t s' 61 h hb37 (by omega)
                                    · rw [if_neg hb37] at h
                                      exact punct_leaf0 input s _ t s' h hlen
                                  · rw [if_neg hb36] at h
                                    by_cases hb38 : first = 124
                                    · rw [if_pos hb38] at h
                                      by_cases hb39 : cur input s = some 124
                                      · rw [if_pos hb39] at h
                                        exact punct_leaf1 input s _ t s' 124 h hb39 (by omega)
                                      · rw [if_neg hb39] at h
                                        by_cases hb40 : cur input s = some 61
                                        · rw [if_pos hb40] at h
                                          exact punct_leaf1 input s _ t s' 61 h hb40 (by omega)
                                        · rw [if_neg hb40] at h
                                          exact punct_leaf0 input s _ t s' h hlen
                                    · rw [if_neg hb38] at h
                                      by_cases hb41 : first = 63
                                      · rw [if_pos hb41] at h
                                        exact punct_leaf0 input s _ t s' h hlen
                                      · rw [if_neg hb41] at h
                                        by_cases hb42 : first = 58
                                        · rw [if_pos hb42] at h
                                          exact punct_leaf0 input s _ t s' h hlen
                                        · rw [if_neg hb42] at h
                                          by_cases hb43 : first = 44
                                          · rw [if_pos hb43] at h
                                            exact punct_leaf0 input s _ t s' h hlen
                                          · rw [if_neg hb43] at h
                                            by_cases hb44 : first = 35
                                            · rw [if_pos hb44] at h
                                              by_cases hb45 : cur input s = some 35
                                              · rw [if_pos hb45] at h
                                                exact punct_leaf1 input s _ t s' 35 h hb45 (by omega)
                                              · rw [if_neg hb45] at h
                                                exact punct_leaf0 input s _ t s' h hlen
                                            · rw [if_neg hb44] at h
                                              by_cases hb46 : first = 123
                                              · rw [if_pos hb46] at h
                                                exact punct_leaf0 input s _ t s' h hlen
                                              · rw [if_neg hb46] at h
                                                by_cases hb47 : first = 125
                                                · rw [if_pos hb47] at h
                                                  exact punct_leaf0 input s _ t s' h hlen
                                                · rw [if_neg hb47] at h
                                                  by_cases hb48 : first = 59
                                                  · rw [if_pos hb48] at h
                                                    exact punct_leaf0 input s _ t s' h hlen
                                                  · rw [if_neg hb48] at h
                                                    exact Except.noConfusion h

theorem peek_lt (input : List Nat) (s : LexState) (c : Nat)
    (h : peek input s = some c) : s.pos + 1 < input.length := by
  have h2 : cur input (moveOn input s) = some c := by
    rw [cur_moveOn_eq_peek]; exact h
  have := cur_lt input (moveOn input s) c h2
  rw [moveOn_pos] at this
  exact this

theorem scanPunct_some_eq (input : List Nat) (s : LexState) (first : Nat)
    (hc : cur input s = some first) :
    scanPunct input s =
      (if first = 60 then
        if cur input (moveOn input s) = some 58 then
          .ok (endToken (moveOn input (moveOn input s)) (.punct .lBrack))
        else if cur input (moveOn input s) = some 37 then
          .ok (endToken (moveOn input (moveOn input s)) (.punct .lBrace))
        else mainPunct input first (moveOn input s)
      else if first = 37 then
        if cur input (moveOn input s) = some 62 then
          .ok (endToken (moveOn input (moveOn input s)) (.punct .rBrace))
        else if cur input (moveOn input s) = some 58 then
          if cur input (moveOn input (moveOn input s)) = some 37 ∧
              peek input (moveOn input (moveOn input s)) = some 58 then
            .ok (endToken (moveOn input (moveOn input (moveOn input (moveOn input s))))
              (.punct .hashHash))
          else mainPunct input first (moveOn input (moveOn input s))
        else mainPunct input first (moveOn input s)
      else if first = 58 then
        if cur input (moveOn input s) = some 62 then
          .ok (endToken (moveOn input (moveOn input s)) (.punct .rBrack))
        else mainPunct input first (moveOn input s)
      else mainPunct input first (moveOn input s)) := by
  unfold scanPunct
  rw [hc]

theorem mainPunct_after1 (input : List Nat) (s : LexState) (first k : Nat)
    (t : Token) (s' : LexState) (hc : cur input s = some k) (hk : k ≠ 10)
    (h : mainPunct input first (moveOn input s) = .ok (t, s')) :
    punctFacts input s t s' ∧ s.pos < s'.pos := by
  have hlt := cur_lt input s k hc
  obtain ⟨f1, f2⟩ := moveOn_flags input s k hc hk
  have hm := mainPunct_facts input first (moveOn input s) t s'
    (by rw [moveOn_pos]; omega) h
  have hp := hm.1
  rw [moveOn_pos] at hp
  exact ⟨punctFacts_compose input s (moveOn input s) t s' hm
    (by rw [moveOn_pos]; omega) f1 f2, by omega⟩

theorem mainPunct_after2 (input : List Nat) (s : LexState) (first k₁ k₂ : Nat)
    (t : Token) (s' : LexState) (hc₁ : cur input s = some k₁) (hk₁ : k₁ ≠ 10)
    (hc₂ : cur input (moveOn input s) = some k₂) (hk₂ : k₂ ≠ 10)
    (h : mainPunct input first (moveOn input (moveOn input s)) = .ok (t, s')) :
    punctFacts input s t s' ∧ s.pos < s'.pos := by
  have hlt₁ := cur_lt input s k₁ hc₁
  have hlt₂ := cur_lt input (moveOn input s) k₂ hc₂
  rw [moveOn_pos] at hlt₂
  obtain ⟨f1, f2⟩ := moveOn_flags input s k₁ hc₁ hk₁
  obtain ⟨g1, g2⟩ := moveOn_flags input (moveOn input s) k₂ hc₂ hk₂
  have hm := mainPunct_facts input first (moveOn input (moveOn input s)) t s'
    (by rw [moveOn_pos, moveOn_pos]; omega) h
  have hp := hm.1
  rw [moveOn_pos, moveOn_pos] at hp
  exact ⟨punctFacts_compose input s (moveOn input (moveOn input s)) t s' hm
    (by rw [moveOn_pos, moveOn_pos]; omega) (g1.trans f1) (g2.trans f2), by omega⟩

theorem scanPunct_facts (input : List Nat) (s : LexState) (t : Token) (s' : LexState)
    (h10 : cur input s ≠ some 10) (h : scanPunct input s = .ok (t, s')) :
    punctFacts input s t s' ∧ s.pos < s'.pos := by
  cases hc : cur input s with
  | none =>
    unfold scanPunct at h
    rw [hc] at h
    exact Except.noConfusion h
  | some first =>
    have hf10 : first ≠ 10 := by
      intro he
      rw [he] at hc
      exact h10 hc
    have hlt := cur_lt input s first hc
    rw [scanPunct_some_eq input s first hc] at h
    by_cases hb1 : first = 60
    · rw [if_pos hb1] at h
      by_cases hd1 : cur input (moveOn input s) = some 58
      · rw [if_pos hd1] at h
        refine ⟨punct_leaf2 input s _ t s' first 58 h hc hf10 hd1 (by omega), ?_⟩
        obtain ⟨e1, e2, e3, e4⟩ := endToken_parts
          (moveOn input (moveOn input s)) (.punct Punct.lBrack)
        have hs' : s' = (endToken (moveOn input (moveOn input s))
            (.punct Punct.lBrack)).2 := (congrArg Prod.snd (Except.ok.inj h)).symm
        rw [hs', e2, moveOn_pos, moveOn_pos]
        omega
      · rw [if_neg hd1] at h
        by_cases hd2 : cur input (moveOn input s) = some 37
        · rw [if_pos hd2] at h
          refine ⟨punct_leaf2 input s _ t s' first 37 h hc hf10 hd2 (by omega), ?_⟩
          have hs' : s' = (endToken (moveOn input (moveOn input s))
              (.punct Punct.lBrace)).2 := (congrArg Prod.snd (Except.ok.inj h)).symm
          obtain ⟨e1, e2, e3, e4⟩ := endToken_parts
            (moveOn input (moveOn input s)) (.punct Punct.lBrace)
          rw [hs', e2, moveOn_pos, moveOn_pos]
          omega
        · rw [if_neg hd2] at h
          exact mainPunct_after1 input s first first t s' hc hf10 h
    · rw [if_neg hb1] at h
      by_cases hb2 : first = 37
      · rw [if_pos hb2] at h
        by_cases hd1 : cur input (moveOn input s) = some 62
        · rw [if_pos hd1] at h
          refine ⟨punct_leaf2 input s _ t s' first 62 h hc hf10 hd1 (by omega), ?_⟩
          have hs' : s' = (endToken (moveOn input (moveOn input s))
              (.punct Punct.rBrace)).2 := (congrArg Prod.snd (Except.ok.inj h)).symm
          obtain ⟨e1, e2, e3, e4⟩ := endToken_parts
            (moveOn input (moveOn input s)) (.punct Punct.rBrace)
          rw [hs', e2, moveOn_pos, moveOn_pos]
          omega
        · rw [if_neg hd1] at h
          by_cases hd2 : cur input (moveOn input s) = some 58
          · rw [if_pos hd2] at h
            by_cases hd3 : cur input (moveOn input (moveOn input s)) = some 37 ∧
                peek input (moveOn input (moveOn input s)) = some 58
            · rw [if_pos hd3] at h
              have hlt2 := cur_lt input (moveOn input s) 58 hd2
              rw [moveOn_pos] at hlt2
              have hlt3 := cur_lt input (moveOn input (moveOn input s)) 37 hd3.1
              rw [moveOn_pos, moveOn_pos] at hlt3
              have hlt4 := peek_lt input (moveOn input (moveOn input s)) 58 hd3.2
              rw [moveOn_pos, moveOn_pos] at hlt4
              have hd4 : cur input (moveOn input (moveOn input (moveOn input s))) =
                  some 58 := by
                rw [cur_moveOn_eq_peek]
                exact hd3.2
              obtain ⟨f1, f2⟩ := moveOn_flags input s first hc hf10
              obtain ⟨g1, g2⟩ := moveOn_flags input (moveOn input s) 58 hd2 (by omega)
              obtain ⟨k1, k2⟩ := moveOn_flags input (moveOn input (moveOn input s)) 37
                hd3.1 (by omega)
              obtain ⟨m1, m2⟩ := moveOn_flags input
                (moveOn input (moveOn input (moveOn input s))) 58 hd4 (by omega)
              refine ⟨punct_leaf input s _ Punct.hashHash t s' h
                (by rw [moveOn_pos, moveOn_pos, moveOn_pos, moveOn_pos]; omega)
                (by rw [moveOn_pos, moveOn_pos, moveOn_pos, moveOn_pos]; omega)
                (((m1.trans k1).trans g1).trans f1)
                (((m2.trans k2).trans g2).trans f2), ?_⟩
              have hs' : s' = (endToken
                  (moveOn input (moveOn input (moveOn input (moveOn input s))))
                  (.punct Punct.hashHash)).2 :=
                (congrArg Prod.snd (Except.ok.inj h)).symm
              obtain ⟨e1, e2, e3, e4⟩ := endToken_parts
                (moveOn input (moveOn input (moveOn input (moveOn input s))))
                (.punct Punct.hashHash)
              rw [hs', e2, moveOn_pos, moveOn_pos, moveOn_pos, moveOn_pos]
              omega
            · rw [if_neg hd3] at h
              exact mainPunct_after2 input s first first 58 t s' hc hf10 hd2
                (by omega) h
          · rw [if_neg hd2] at h
            exact mainPunct_after1 input s first first t s' hc hf10 h
      · rw [if_neg hb2] at h
        by_cases hb3 : first = 58
        · rw [if_pos hb3] at h
          by_cases hd1 : cur input (moveOn input s) = some 62
          · rw [if_pos hd1] at h
            refine ⟨punct_leaf2 input s _ t s' first 62 h hc hf10 hd1 (by omega), ?_⟩
            have hs' : s' = (endToken (moveOn input (moveOn input s))
                (.punct Punct.rBrack)).2 := (congrArg Prod.snd (Except.ok.inj h)).symm
            obtain ⟨e1, e2, e3, e4⟩ := endToken_parts
              (moveOn input (moveOn input s)) (.punct Punct.rBrack)
            rw [hs', e2, moveOn_pos, moveOn_pos]
            omega
          · rw [if_neg hd1] at h
            exact mainPunct_after1 input s first first t s' hc hf10 h
        · rw [if_neg hb3] at h
          exact mainPunct_after1 input s first first t s' hc hf10 h

theorem nonstr_leaf (input : List Nat) (s₀ X : LexState) (tok t : Token)
    (s' : LexState) (h : endToken X tok = (t, s'))
    (hpos : s₀.pos ≤ X.pos) (hlen : X.pos ≤ input.length)
    (hals : X.at_line_start = s₀.at_line_start)
    (hdir : X.in_directive = s₀.in_directive)
    (hnstr : ∀ bs, tok ≠ .stringLit bs) (hneol : tok ≠ .eol) :
    punctFacts input s₀ t s' := by
  have ht : t = (endToken X tok).1 := (congrArg Prod.fst h).symm
  have hs' : s' = (endToken X tok).2 := (congrArg Prod.snd h).symm
  obtain ⟨e1, e2, e3, e4⟩ := endToken_parts X tok
  rw [e1] at ht
  refine ⟨by rw [hs', e2]; omega, by rw [hs', e2]; omega, by rw [hs', e3], ?_,
    by rw [ht]; exact hnstr, by rw [ht]; exact hneol⟩
  intro hd
  rw [hs', e4] at hd
  split_ifs at hd with hcond
  · right
    exact ⟨by rw [← hals]; exact hcond.1, by rw [ht, isHash_eq tok hcond.2]⟩
  · left
    rw [← hdir]
    exact hd

theorem scanIdent_facts (input : List Nat) (s : LexState) (c : Nat)
    (t : Token) (s' : LexState) (hc : cur input s = some c)
    (hid : isIdentByte c = true) (h : scanIdent input s = (t, s')) :
    punctFacts input s t s' ∧ s.pos < s'.pos := by
  have hlt := cur_lt input s c hc
  have key : (identLoop input (input.length + 1) s).pos ≤ input.length ∧
      s.pos < (identLoop input (input.length + 1) s).pos ∧
      (identLoop input (input.length + 1) s).at_line_start = s.at_line_start ∧
      (identLoop input (input.length + 1) s).in_directive = s.in_directive := by
    rw [identLoop_succ_some input input.length s c hc, if_pos hid]
    obtain ⟨a1, a2, a3, a4⟩ := identLoop_facts input input.length (moveOn input s)
      (by rw [moveOn_pos]; omega)
    obtain ⟨f1, f2⟩ := moveOn_flags input s c hc (isIdentByte_ne10 c hid)
    rw [moveOn_pos] at a2
    exact ⟨a1, by omega, a3.trans f1, a4.trans f2⟩
  obtain ⟨k1, k2, k3, k4⟩ := key
  unfold scanIdent at h
  have hf := nonstr_leaf input s (identLoop input (input.length + 1) s)
    (.ident (slice input s.pos (identLoop input (input.length + 1) s).pos)) t s' h
    (by omega) k1 k3 k4 (fun bs hx => Token.noConfusion hx)
    (fun hx => Token.noConfusion hx)
  refine ⟨hf, ?_⟩
  have hps : s' = (endToken (identLoop input (input.length + 1) s)
      (.ident (slice input s.pos (identLoop input (input.length + 1) s).pos))).2 :=
    (congrArg Prod.snd h).symm
  obtain ⟨e1, e2, e3, e4⟩ := endToken_parts (identLoop input (input.length + 1) s)
    (.ident (slice input s.pos (identLoop input (input.length + 1) s).pos))
  rw [hps, e2]
  omega

theorem scanNumber_facts (input : List Nat) (s : LexState) (first : Nat)
    (t : Token) (s' : LexState) (hc : cur input s = some first)
    (hf10 : first ≠ 10) (h : scanNumber input s = some (t, s')) :
    punctFacts input s t s' ∧ s.pos < s'.pos := by
  have hlt := cur_lt input s first hc
  unfold scanNumber at h
  rw [hc] at h
  have h' : (if first = 46 ∧ (cur input (moveOn input s)).any isDigit = false then
      none
    else
      some (endToken (numLoop input (input.length + 1) (moveOn input s))
        (.number (slice input s.pos
          (numLoop input (input.length + 1) (moveOn input s)).pos)))) =
      some (t, s') := h
  split_ifs at h' with hrej
  have hpair : endToken (numLoop input (input.length + 1) (moveOn input s))
      (.number (slice input s.pos
        (numLoop input (input.length + 1) (moveOn input s)).pos)) = (t, s') :=
    Option.some.inj h'
  obtain ⟨a1, a2, a3, a4⟩ := numLoop_facts input (input.length + 1)
    (moveOn input s) (by rw [moveOn_pos]; omega)
  obtain ⟨f1, f2⟩ := moveOn_flags input s first hc hf10
  rw [moveOn_pos] at a2
  have hf := nonstr_leaf input s (numLoop input (input.length + 1) (moveOn input s))
    (.number (slice input s.pos
      (numLoop input (input.length + 1) (moveOn input s)).pos)) t s' hpair
    (by omega) a1 (a3.trans f1) (a4.trans f2)
    (fun bs hx => Token.noConfusion hx) (fun hx => Token.noConfusion hx)
  refine ⟨hf, ?_⟩
  have hps : s' = (endToken (numLoop input (input.length + 1) (moveOn input s))
      (.number (slice input s.pos
        (numLoop input (input.length + 1) (moveOn input s)).pos))).2 :=
    (congrArg Prod.snd hpair).symm
  obtain ⟨e1, e2, e3, e4⟩ := endToken_parts
    (numLoop input (input.length + 1) (moveOn input s))
    (.number (slice input s.pos
      (numLoop input (input.length + 1) (moveOn input s)).pos))
  rw [hps, e2]
  omega

theorem scanOther_facts (input : List Nat) (s : LexState) (c : Nat)
    (t : Token) (s' : LexState) (hc : cur input s = some c) (hc10 : c ≠ 10)
    (h : scanOther input s = (t, s')) :
    punctFacts input s t s' ∧ s.pos < s'.pos := by
  have hlt := cur_lt input s c hc
  obtain ⟨f1, f2⟩ := moveOn_flags input s c hc hc10
  unfold scanOther at h
  have hf := nonstr_leaf input s (moveOn input s)
    (.other (slice input s.pos (moveOn input s).pos)) t s' h
    (by rw [moveOn_pos]; omega) (by rw [moveOn_pos]; omega) f1 f2
    (fun bs hx => Token.noConfusion hx) (fun hx => Token.noConfusion hx)
  refine ⟨hf, ?_⟩
  have hps : s' = (endToken (moveOn input s)
      (.other (slice input s.pos (moveOn input s).pos))).2 :=
    (congrArg Prod.snd h).symm
  obtain ⟨e1, e2, e3, e4⟩ := endToken_parts (moveOn input s)
    (.other (slice input s.pos (moveOn input s).pos))
  rw [hps, e2, moveOn_pos]
  omega

theorem isPunctByte_ne10 (c : Nat) (h : isPunctByte c = true) : c ≠ 10 := by
  simp [isPunctByte] at h
  omega

theorem skipWs_false_val (input : List Nat) (fuel : Nat) :
    ∀ (s s₁ : LexState) (c : Nat), input.length - s.pos < fuel →
    skipWs input fuel s = (s₁, false) → cur input s₁ = some c →
    isWsByte c = false ∧ c ≠ 10 := by
  induction fuel with
  | zero => intro s s₁ c hf h hc; omega
  | succ fuel ih =>
    intro s s₁ c hf h hc
    cases hcs : cur input s with
    | none =>
      rw [skipWs_succ_none input fuel s hcs] at h
      injection h with h1 h2
      rw [← h1] at hc
      rw [hcs] at hc
      exact Option.noConfusion hc
    | some c0 =>
      have hlt := cur_lt input s c0 hcs
      rw [skipWs_succ_some input fuel s c0 hcs] at h
      by_cases hw : isWsByte c0
      · rw [if_pos hw] at h
        exact ih (moveOn input s) s₁ c (by rw [moveOn_pos]; omega) h hc
      · rw [if_neg hw] at h
        by_cases h10 : c0 = 10
        · rw [if_pos h10] at h
          injection h with h1 h2
          exact Bool.noConfusion h2
        · rw [if_neg h10] at h
          injection h with h1 h2
          rw [← h1] at hc
          rw [hcs] at hc
          have : c0 = c := Option.some.inj hc
          subst this
          exact ⟨eq_false_of_ne_true hw, h10⟩

theorem next_concl_of_punctFacts (input : List Nat) (s : LexState) (t : Token)
    (s' : LexState) (h : punctFacts input s t s') (hstrict : s.pos < s'.pos) :
    s.pos < s'.pos ∧ s'.pos ≤ input.length ∧
    (t = .eol → s'.at_line_start = true ∧ s'.in_directive = false) ∧
    (t ≠ .eol → s'.at_line_start = false) ∧
    (s'.in_directive = true →
      s.in_directive = true ∨ (s.at_line_start = true ∧ t = .punct .hash)) ∧
    (∀ bs, t = .stringLit bs → bs.head? = some 60 → s.in_directive = true) := by
  obtain ⟨h1, h2, h3, h4, h5, h6⟩ := h
  refine ⟨hstrict, h2, fun he => absurd he h6, fun _ => h3, h4, ?_⟩
  intro bs hbs _
  exact absurd hbs (h5 bs)

/-- Per-step characterization of `next` used by the header-name invariant
(C8) and the termination argument (C10). -/
theorem next_ok_facts (input : List Nat) (s : LexState) (t : Token) (s' : LexState)
    (h : next input s = .ok (some (t, s'))) :
    s.pos < s'.pos ∧ s'.pos ≤ input.length ∧
    (t = .eol → s'.at_line_start = true ∧ s'.in_directive = false) ∧
    (t ≠ .eol → s'.at_line_start = false) ∧
    (s'.in_directive = true →
      s.in_directive = true ∨ (s.at_line_start = true ∧ t = .punct .hash)) ∧
    (∀ bs, t = .stringLit bs → bs.head? = some 60 → s.in_directive = true) := by
  unfold next at h
  rcases hw : skipWs input (input.length + 1) s with ⟨s₁, b⟩
  rw [hw] at h
  cases b with
  | true =>
    have h' : (Except.ok (some (Token.eol, s₁)) :
        Except LexAbort (Option (Token × LexState))) = .ok (some (t, s')) := h
    have hpair : (Token.eol, s₁) = (t, s') := Option.some.inj (Except.ok.inj h')
    injection hpair with ht hs'
    subst ht
    subst hs'
    obtain ⟨w1, w2, w3, w4⟩ := skipWs_true input (input.length + 1) s s₁ hw
    refine ⟨w3, w4, fun _ => ⟨w1, w2⟩, fun hne => absurd rfl hne, ?_, ?_⟩
    · intro hd
      rw [w2] at hd
      exact Bool.noConfusion hd
    · intro bs hbs
      exact absurd hbs (fun hx => Token.noConfusion hx)
  | false =>
    obtain ⟨f1, f2, f3⟩ := skipWs_false input (input.length + 1) s s₁ hw
    have hcompose : ∀ tk st, punctFacts input s₁ tk st → s₁.pos < st.pos →
        s.pos < st.pos ∧ st.pos ≤ input.length ∧
        (tk = .eol → st.at_line_start = true ∧ st.in_directive = false) ∧
        (tk ≠ .eol → st.at_line_start = false) ∧
        (st.in_directive = true →
          s.in_directive = true ∨ (s.at_line_start = true ∧ tk = .punct .hash)) ∧
        (∀ bs, tk = .stringLit bs → bs.head? = some 60 → s.in_directive = true) := by
      intro tk st hp hstrict
      have := next_concl_of_punctFacts input s₁ tk st hp hstrict
      obtain ⟨a1, a2, a3, a4, a5, a6⟩ := this
      refine ⟨by omega, a2, a3, a4, ?_, ?_⟩
      · intro hd
        rcases a5 hd with hl | ⟨ha, hh⟩
        · left; rw [← f2]; exact hl
        · right; exact ⟨by rw [← f1]; exact ha, hh⟩
      · intro bs hbs h60
        rw [← f2]
        exact a6 bs hbs h60
    have hm : (match cur input s₁ with
        | some c =>
          if isIdentByte c then
            (Except.ok (some (scanIdent input s₁)) :
              Except LexAbort (Option (Token × LexState)))
          else if isDigit c ∨ c = 46 then
            match scanNumber input s₁ with
            | some r => .ok (some r)
            | none => (scanPunct input s₁).map some
          else if c = 34 ∨ c = 39 ∨ c = 60 then
            if s₁.in_directive ∨ c ≠ 60 then
              match scanStringLit input s₁ with
              | .error e => .error e
              | .ok (some r) => .ok (some r)
              | .ok none => (scanPunct input s₁).map some
            else (scanPunct input s₁).map some
          else if isPunctByte c then (scanPunct input s₁).map some
          else .ok (some (scanOther input s₁))
        | none => .ok none) = .ok (some (t, s')) := h
    cases hc : cur input s₁ with
    | none =>
      rw [hc] at hm
      have h' : (Except.ok none : Except LexAbort (Option (Token × LexState))) =
          .ok (some (t, s')) := hm
      exact Option.noConfusion (Except.ok.inj h')
    | some c =>
      rw [hc] at hm
      have h' : (if isIdentByte c then
            (Except.ok (some (scanIdent input s₁)) :
              Except LexAbort (Option (Token × LexState)))
          else if isDigit c ∨ c = 46 then
            match scanNumber input s₁ with
            | some r => .ok (some r)
            | none => (scanPunct input s₁).map some
          else if c = 34 ∨ c = 39 ∨ c = 60 then
            if s₁.in_directive ∨ c ≠ 60 then
              match scanStringLit input s₁ with
              | .error e => .error e
              | .ok (some r) => .ok (some r)
              | .ok none => (scanPunct input s₁).map some
            else (scanPunct input s₁).map some
          else if isPunctByte c then (scanPunct input s₁).map some
          else .ok (some (scanOther input s₁))) = .ok (some (t, s')) := hm
      by_cases hb1 : isIdentByte c
      · rw [if_pos hb1] at h'
        have hpair : scanIdent input s₁ = (t, s') :=
          Option.some.inj (Except.ok.inj h')
        obtain ⟨hf, hstrict⟩ := scanIdent_facts input s₁ c t s' hc hb1 hpair
        exact hcompose t s' hf hstrict
      · rw [if_neg hb1] at h'
        by_cases hb2 : isDigit c ∨ c = 46
        · rw [if_pos hb2] at h'
          have hc10 : c ≠ 10 := by
            rcases hb2 with hd | hd
            · simp [isDigit] at hd; omega
            · omega
          cases hn : scanNumber input s₁ with
          | some r =>
            rw [hn] at h'
            have hpair : r = (t, s') := Option.some.inj (Except.ok.inj h')
            rw [hpair] at hn
            obtain ⟨hf, hstrict⟩ := scanNumber_facts input s₁ c t s' hc hc10 hn
            exact hcompose t s' hf hstrict
          | none =>
            rw [hn] at h'
            have h'' : (scanPunct input s₁).map some = .ok (some (t, s')) := h'
            cases hp : scanPunct input s₁ with
            | error e => rw [hp] at h''; exact Except.noConfusion h''
            | ok r =>
              rw [hp] at h''
              have hpair : r = (t, s') :=
                Option.some.inj (Except.ok.inj h'')
              rw [hpair] at hp
              obtain ⟨hf, hstrict⟩ := scanPunct_facts input s₁ t s'
                (by rw [hc]; intro hx; exact hc10 (Option.some.inj hx)) hp
              exact hcompose t s' hf hstrict
        · rw [if_neg hb2] at h'
          by_cases hb3 : c = 34 ∨ c = 39 ∨ c = 60
          · rw [if_pos hb3] at h'
            have hc10 : c ≠ 10 := by rcases hb3 with hd | hd | hd <;> omega
            by_cases hcond : s₁.in_directive = true ∨ c ≠ 60
            · rw [if_pos hcond] at h'
              cases hsl : scanStringLit input s₁ with
              | error e => rw [hsl] at h'; exact Except.noConfusion h'
              | ok o =>
                rw [hsl] at h'
                cases o with
                | some r =>
                  have h'' : (Except.ok (some r) :
                      Except LexAbort (Option (Token × LexState))) =
                      .ok (some (t, s')) := h'
                  have hpair : r = (t, s') := Option.some.inj (Except.ok.inj h'')
                  rw [hpair] at hsl
                  obtain ⟨g1, g2, g3, g4, g5, g6⟩ :=
                    scanStringLit_ok input s₁ t s' hsl
                  refine ⟨by omega, g2, fun he => absurd he g6,
                    fun _ => g3, ?_, ?_⟩
                  · intro hd
                    left
                    rw [← f2]
                    exact g4 hd
                  · intro bs hbs h60
                    have := g5 bs hbs
                    rw [h60, hc] at this
                    have hc60 : c = 60 := (Option.some.inj this.symm)
                    rcases hcond with hcd | hcd
                    · rw [← f2]; exact hcd
                    · exact absurd hc60 hcd
                | none =>
                  have h'' : (scanPunct input s₁).map some = .ok (some (t, s')) := h'
                  cases hp : scanPunct input s₁ with
                  | error e => rw [hp] at h''; exact Except.noConfusion h''
                  | ok r =>
                    rw [hp] at h''
                    have hpair : r = (t, s') :=
                      Option.some.inj (Except.ok.inj h'')
                    rw [hpair] at hp
                    obtain ⟨hf, hstrict⟩ := scanPunct_facts input s₁ t s'
                      (by rw [hc]; intro hx; exact hc10 (Option.some.inj hx)) hp
                    exact hcompose t s' hf hstrict
            · rw [if_neg hcond] at h'
              have h'' : (scanPunct input s₁).map some = .ok (some (t, s')) := h'
              cases hp : scanPunct input s₁ with
              | error e => rw [hp] at h''; exact Except.noConfusion h''
              | ok r =>
                rw [hp] at h''
                have hpair : r = (t, s') :=
                  Option.some.inj (Except.ok.inj h'')
                rw [hpair] at hp
                obtain ⟨hf, hstrict⟩ := scanPunct_facts input s₁ t s'
                  (by rw [hc]; intro hx; exact hc10 (Option.some.inj hx)) hp
                exact hcompose t s' hf hstrict
          · rw [if_neg hb3] at h'
            by_cases hb4 : isPunctByte c
            · rw [if_pos hb4] at h'
              have h'' : (scanPunct input s₁).map some = .ok (some (t, s')) := h'
              cases hp : scanPunct input s₁ with
              | error e => rw [hp] at h''; exact Except.noConfusion h''
              | ok r =>
                rw [hp] at h''
                have hpair : r = (t, s') :=
                  Option.some.inj (Except.ok.inj h'')
                rw [hpair] at hp
                obtain ⟨hf, hstrict⟩ := scanPunct_facts input s₁ t s'
                  (by rw [hc]; intro hx
                      exact isPunctByte_ne10 c hb4 (Option.some.inj hx)) hp
                exact hcompose t s' hf hstrict
            · rw [if_neg hb4] at h'
              have hpair : scanOther input s₁ = (t, s') :=
                Option.some.inj (Except.ok.inj h')
              have hval := skipWs_false_val input (input.length + 1) s s₁ c
                (by omega) hw hc
              obtain ⟨hf, hstrict⟩ := scanOther_facts input s₁ c t s' hc hval.2 hpair
              exact hcompose t s' hf hstrict

theorem okTokensB_mono : ∀ (ts : List Token) (a b b' : Bool),
    okTokensB a b ts = true → (b = true → b' = true) → okTokensB a b' ts = true := by
  intro ts
  induction ts with
  | nil => intro a b b' _ _; rfl
  | cons tok ts ih =>
    intro a b b' h hm
    cases tok with
    | eol => exact h
    | punct p =>
      cases p <;> simp only [okTokensB] at h ⊢ <;>
        first
        | exact ih _ _ _ h hm
        | exact ih _ _ _ h (by
            intro hb
            rcases Bool.or_eq_true_iff.mp hb with hx | hx
            · simp [hm hx]
            · simp [hx])
    | stringLit bs =>
      simp only [okTokensB, Bool.and_eq_true] at h ⊢
      obtain ⟨h1, h2⟩ := h
      refine ⟨?_, ih _ _ _ h2 hm⟩
      split_ifs at h1 ⊢ with hh
      · exact hm h1
      · rfl
    | ident v => exact ih _ _ _ h hm
    | number v => exact ih _ _ _ h hm
    | other v => exact ih _ _ _ h hm
    | eof => exact ih _ _ _ h hm

theorem okTokens_step (input : List Nat) (s : LexState) (t : Token) (s' : LexState)
    (ts' : List Token) (hn : next input s = .ok (some (t, s')))
    (hIH : okTokensB s'.at_line_start s'.in_directive ts' = true) :
    okTokensB s.at_line_start s.in_directive (t :: ts') = true := by
  obtain ⟨p1, p2, p3, p4, p5, p6⟩ := next_ok_facts input s t s' hn
  cases t with
  | eol =>
    obtain ⟨ha, hd⟩ := p3 rfl
    rw [ha, hd] at hIH
    exact hIH
  | punct p =>
    have hals : s'.at_line_start = false := p4 (fun hx => Token.noConfusion hx)
    rw [hals] at hIH
    cases p
    case hash =>
      refine okTokensB_mono ts' false s'.in_directive _ hIH ?_
      intro hd
      rcases p5 hd with hx | ⟨hx1, hx2⟩
      · simp [hx]
      · simp [hx1]
    all_goals
      refine okTokensB_mono ts' false s'.in_directive _ hIH ?_
      intro hd
      rcases p5 hd with hx | ⟨hx1, hx2⟩
      · exact hx
      · exact absurd hx2 (by decide)
  | stringLit bs =>
    have hals : s'.at_line_start = false := p4 (fun hx => Token.noConfusion hx)
    rw [hals] at hIH
    simp only [okTokensB, Bool.and_eq_true]
    constructor
    · split_ifs with h60
      · exact p6 bs rfl h60
      · rfl
    · refine okTokensB_mono ts' false s'.in_directive _ hIH ?_
      intro hd
      rcases p5 hd with hx | ⟨hx1, hx2⟩
      · exact hx
      · exact absurd hx2 (fun hx => Token.noConfusion hx)
  | ident v =>
    have hals : s'.at_line_start = false := p4 (fun hx => Token.noConfusion hx)
    rw [hals] at hIH
    refine okTokensB_mono ts' false s'.in_directive _ hIH ?_
    intro hd
    rcases p5 hd with hx | ⟨hx1, hx2⟩
    · exact hx
    · exact absurd hx2 (fun hx => Token.noConfusion hx)
  | number v =>
    have hals : s'.at_line_start = false := p4 (fun hx => Token.noConfusion hx)
    rw [hals] at hIH
    refine okTokensB_mono ts' false s'.in_directive _ hIH ?_
    intro hd
    rcases p5 hd with hx | ⟨hx1, hx2⟩
    · exact hx
    · exact absurd hx2 (fun hx => Token.noConfusion hx)
  | other v =>
    have hals : s'.at_line_start = false := p4 (fun hx => Token.noConfusion hx)
    rw [hals] at hIH
    refine okTokensB_mono ts' false s'.in_directive _ hIH ?_
    intro hd
    rcases p5 hd with hx | ⟨hx1, hx2⟩
    · exact hx
    · exact absurd hx2 (fun hx => Token.noConfusion hx)
  | eof =>
    have hals : s'.at_line_start = false := p4 (fun hx => Token.noConfusion hx)
    rw [hals] at hIH
    refine okTokensB_mono ts' false s'.in_directive _ hIH ?_
    intro hd
    rcases p5 hd with hx | ⟨hx1, hx2⟩
    · exact hx
    · exact absurd hx2 (fun hx => Token.noConfusion hx)

theorem lexFuel_okTokens (input : List Nat) (fuel : Nat) :
    ∀ (s : LexState) (ts : List Token), lexFuel input fuel s = .ok ts →
    okTokensB s.at_line_start s.in_directive ts = true := by
  induction fuel with
  | zero => intro s ts h; exact Except.noConfusion h
  | succ fuel ih =>
    intro s ts h
    have hm : (match next input s with
        | .error e => (Except.error e : Except LexAbort (List Token))
        | .ok none => .ok [.eof]
        | .ok (some (t, s')) => (lexFuel input fuel s').map (t :: ·)) = .ok ts := h
    cases hn : next input s with
    | error e =>
      rw [hn] at hm
      exact Except.noConfusion hm
    | ok o =>
      rw [hn] at hm
      cases o with
      | none =>
        have hts : [Token.eof] = ts := Except.ok.inj hm
        rw [← hts]
        rfl
      | some p =>
        rcases p with ⟨t, s'⟩
        have h' : (lexFuel input fuel s').map (t :: ·) = .ok ts := hm
        cases hrec : lexFuel input fuel s' with
        | error e => rw [hrec] at h'; exact Except.noConfusion h'
        | ok ts' =>
          rw [hrec] at h'
          have hts : t :: ts' = ts := Except.ok.inj h'
          rw [← hts]
          exact okTokens_step input s t s' ts' hn (ih s' ts' hrec)

/-- C8: a header-name `StringLit` (one whose bytes start with `<`) is
emitted only when a `#` punctuator was the first token of the current line:
every successful token stream satisfies the `okTokensB` discipline, which
requires the line-license flag (set exactly by a `#` emitted first on its
line, cleared at `Eol`) at every `<…>` string literal. -/
theorem c8_header_name_only_in_directive (input : List Nat) (ts : List Token)
    (h : lexBytes input = .ok ts) : okTokensB true false ts = true :=
  lexFuel_okTokens input (input.length + 1) initLex ts h

theorem c8_header_name_only_in_directive_witness :
    okTokensB true false
      [.punct .hash, .ident (bytes "include"), .stringLit (bytes "<stdio.h>"),
       .eol, .ident (bytes "a"), .punct .lt, .ident (bytes "b"), .eol, .eof] =
      true :=
  c8_header_name_only_in_directive (bytes "#include <stdio.h>\na < b\n")
    [.punct .hash, .ident (bytes "include"), .stringLit (bytes "<stdio.h>"),
     .eol, .ident (bytes "a"), .punct .lt, .ident (bytes "b"), .eol, .eof]
    (by rfl)

/-! ### Termination of the lexer on well-terminated inputs (C10) -/

theorem mainPunct_ne_diverge (input : List Nat) (first : Nat) (s : LexState) :
    mainPunct input first s ≠ .error .diverge := by
  intro h
  unfold mainPunct at h
  by_cases hk0 : first = 91
  · rw [if_pos hk0] at h
    exact Except.noConfusion h
  · rw [if_neg hk0] at h
    by_cases hk1 : first = 93
    · rw [if_pos hk1] at h
      exact Except.noConfusion h
    · rw [if_neg hk1] at h
      by_cases hk2 : first = 40
      · rw [if_pos hk2] at h
        exact Except.noConfusion h
      · rw [if_neg hk2] at h
        by_cases hk3 : first = 41
        · rw [if_pos hk3] at h
          exact Except.noConfusion h
        · rw [if_neg hk3] at h
          by_cases hk4 : first = 46
          · rw [if_pos hk4] at h
            split_ifs at h
          · rw [if_neg hk4] at h
            by_cases hk5 : first = 45
            · rw [if_pos hk5] at h
              split_ifs at h
            · rw [if_neg hk5] at h
              by_cases hk6 : first = 43
              · rw [if_pos hk6] at h
                split_ifs at h
              · rw [if_neg hk6] at h
                by_cases hk7 : first = 38
                · rw [if_pos hk7] at h
                  split_ifs at h
                · rw [if_neg hk7] at h
                  by_cases hk8 : first = 42
                  · rw [if_pos hk8] at h
                    split_ifs at h
                  · rw [if_neg hk8] at h
                    by_cases hk9 : first = 126
                    · rw [if_pos hk9] at h
                      exact Except.noConfusion h
                    · rw [if_neg hk9] at h
                      by_cases hk10 : first = 33
                      · rw [if_pos hk10] at h
                        split_ifs at h
                      · rw [if_neg hk10] at h
                        by_cases hk11 : first = 47
                        · rw [if_pos hk11] at h
                          split_ifs at h
                        · rw [if_neg hk11] at h
                          by_cases hk12 : first = 37
                          · rw [if_pos hk12] at h
                            split_ifs at h
                          · rw [if_neg hk12] at h
                            by_cases hk13 : first = 60
                            · rw [if_pos hk13] at h
                              split_ifs at h
                            · rw [if_neg hk13] at h
                              by_cases hk14 : first = 62
                              · rw [if_pos hk14] at h
                                split_ifs at h
                              · rw [if_neg hk14] at h
                                by_cases hk15 : first = 61
                                · rw [if_pos hk15] at h
                                  split_ifs at h
                                · rw [if_neg hk15] at h
                                  by_cases hk16 : first = 94
                                  · rw [if_pos hk16] at h
                                    split_ifs at h
                                  · rw [if_neg hk16] at h
                                    by_cases hk17 : first = 124
                                    · rw [if_pos hk17] at h
                                      split_ifs at h
                                    · rw [if_neg hk17] at h
                                      by_cases hk18 : first = 63
                                      · rw [if_pos hk18] at h
                                        exact Except.noConfusion h
                                      · rw [if_neg hk18] at h
                                        by_cases hk19 : first = 58
                                        · rw [if_pos hk19] at h
                                          exact Except.noConfusion h
                                        · rw [if_neg hk19] at h
                                          by_cases hk20 : first = 44
                                          · rw [if_pos hk20] at h
                                            exact Except.noConfusion h
                                          · rw [if_neg hk20] at h
                                            by_cases hk21 : first = 35
                                            · rw [if_pos hk21] at h
                                              split_ifs at h
                                            · rw [if_neg hk21] at h
                                              by_cases hk22 : first = 123
                                              · rw [if_pos hk22] at h
                                                exact Except.noConfusion h
                                              · rw [if_neg hk22] at h
                                                by_cases hk23 : first = 125
                                                · rw [if_pos hk23] at h
                                                  exact Except.noConfusion h
                                                · rw [if_neg hk23] at h
                                                  by_cases hk24 : first = 59
                                                  · rw [if_pos hk24] at h
                                                    exact Except.noConfusion h
                                                  · rw [if_neg hk24] at h
                                                    exact LexAbort.noConfusion (Except.error.inj h)

theorem scanPunct_ne_diverge (input : List Nat) (s : LexState) :
    scanPunct input s ≠ .error .diverge := by
  intro h
  unfold scanPunct at h
  cases hc : cur input s with
  | none =>
    rw [hc] at h
    have h' : (Except.error .panic : Except LexAbort (Token × LexState)) =
        .error .diverge := h
    exact LexAbort.noConfusion (Except.error.inj h')
  | some first =>
    rw [hc] at h
    have h' : (if first = 60 then
          if cur input (moveOn input s) = some 58 then
            (Except.ok (endToken (moveOn input (moveOn input s)) (.punct .lBrack)) :
              Except LexAbort (Token × LexState))
          else if cur input (moveOn input s) = some 37 then
            .ok (endToken (moveOn input (moveOn input s)) (.punct .lBrace))
          else mainPunct input first (moveOn input s)
        else if first = 37 then
          if cur input (moveOn input s) = some 62 then
            .ok (endToken (moveOn input (moveOn input s)) (.punct .rBrace))
          else if cur input (moveOn input s) = some 58 then
            if cur input (moveOn input (moveOn input s)) = some 37 ∧
                peek input (moveOn input (moveOn input s)) = some 58 then
              .ok (endToken (moveOn input (moveOn input (moveOn input (moveOn input s))))
                (.punct .hashHash))
            else mainPunct input first (moveOn input (moveOn input s))
          else mainPunct input first (moveOn input s)
        else if first = 58 then
          if cur input (moveOn input s) = some 62 then
            .ok (endToken (moveOn input (moveOn input s)) (.punct .rBrack))
          else mainPunct input first (moveOn input s)
        else mainPunct input first (moveOn input s)) = .error .diverge := h
    split_ifs at h' <;>
      first
      | exact Except.noConfusion h'
      | exact mainPunct_ne_diverge input first _ h'

theorem strLoop_no_diverge (input : List Nat) (first terminator start : Nat)
    (hlast : input[input.length - 1]? = some 10)
    (hpen : input[input.length - 2]? ≠ some 92) (fuel : Nat) :
    ∀ s : LexState, s.pos < input.length → input.length - s.pos < fuel →
      strLoop input first terminator start fuel s ≠ .error .diverge := by
  induction fuel with
  | zero =>
    intro s hpos hfuel h
    exact absurd hfuel (Nat.not_lt_zero _)
  | succ fuel ih =>
    intro s hpos hfuel h
    obtain ⟨c, hc⟩ : ∃ c, cur input s = some c := by
      unfold cur
      rw [List.getElem?_eq_getElem hpos]
      exact ⟨_, rfl⟩
    have hcq : input[s.pos]? = some c := hc
    rw [strLoop_succ_some input first terminator start fuel s c hc] at h
    by_cases hterm : c = terminator
    · rw [if_pos hterm] at h
      exact Except.noConfusion h
    · rw [if_neg hterm] at h
      by_cases hesc : c = 92 ∧ first ≠ 60
      · rw [if_pos hesc] at h
        obtain ⟨hc92, hf60⟩ := hesc
        have hne1 : s.pos ≠ input.length - 1 := by
          intro he
          rw [he, hlast] at hcq
          have h1 := Option.some.inj hcq
          omega
        have hne2 : s.pos ≠ input.length - 2 := by
          intro he
          rw [he, hc92] at hcq
          exact hpen hcq
        refine ih (moveOn input (moveOn input s)) ?_ ?_ h
        · rw [moveOn_pos, moveOn_pos]
          omega
        · rw [moveOn_pos, moveOn_pos]
          omega
      · rw [if_neg hesc] at h
        by_cases h10 : c = 10
        · rw [if_pos h10] at h
          by_cases h60 : first = 60
          · rw [if_pos h60] at h
            exact Except.noConfusion h
          · rw [if_neg h60] at h
            exact Except.noConfusion h
        · rw [if_neg h10] at h
          have hne1 : s.pos ≠ input.length - 1 := by
            intro he
            rw [he, hlast] at hcq
            have h1 := Option.some.inj hcq
            omega
          refine ih (moveOn input s) ?_ ?_ h
          · rw [moveOn_pos]
            omega
          · rw [moveOn_pos]
            omega

theorem scanStringLit_no_diverge (input : List Nat)
    (hlast : input[input.length - 1]? = some 10)
    (hpen : input[input.length - 2]? ≠ some 92) (s : LexState) :
    scanStringLit input s ≠ .error .diverge := by
  intro h
  unfold scanStringLit at h
  cases hc : cur input s with
  | none =>
    rw [hc] at h
    have h' : (Except.error .panic : Except LexAbort (Option (Token × LexState))) =
        .error .diverge := h
    exact LexAbort.noConfusion (Except.error.inj h')
  | some first =>
    rw [hc] at h
    have h' : (if first = 34 ∨ first = 39 ∨ first = 60 then
          if cur input (moveOn input s) = some 58 ∨
              cur input (moveOn input s) = some 37 then
            (Except.ok none : Except LexAbort (Option (Token × LexState)))
          else
            strLoop input first (if first = 34 then 34 else if first = 39 then 39 else 62)
              s.pos (input.length + 1) (moveOn input s)
        else .error .panic) = .error .diverge := h
    by_cases hop : first = 34 ∨ first = 39 ∨ first = 60
    · rw [if_pos hop] at h'
      by_cases hrej : cur input (moveOn input s) = some 58 ∨
          cur input (moveOn input s) = some 37
      · rw [if_pos hrej] at h'
        exact Except.noConfusion h'
      · rw [if_neg hrej] at h'
        have hpos : s.pos < input.length := cur_lt input s first hc
        have hcq : input[s.pos]? = some first := hc
        have hne1 : s.pos ≠ input.length - 1 := by
          intro he
          rw [he, hlast] at hcq
          have h1 := Option.some.inj hcq
          rcases hop with hx | hx | hx <;> omega
        refine strLoop_no_diverge input first
          (if first = 34 then 34 else if first = 39 then 39 else 62) s.pos hlast hpen
          (input.length + 1) (moveOn input s) ?_ ?_ h'
        · rw [moveOn_pos]
          omega
        · rw [moveOn_pos]
          omega
    · rw [if_neg hop] at h'
      exact LexAbort.noConfusion (Except.error.inj h')

theorem scanPunctMap_ne_diverge (input : List Nat) (s : LexState) :
    (scanPunct input s).map some ≠
      (.error .diverge : Except LexAbort (Option (Token × LexState))) := by
  intro h
  cases hp : scanPunct input s with
  | error e =>
    rw [hp] at h
    have h' : (Except.error e : Except LexAbort (Option (Token × LexState))) =
        .error .diverge := h
    exact scanPunct_ne_diverge input s ((Except.error.inj h') ▸ hp)
  | ok r =>
    rw [hp] at h
    have h' : (Except.ok (some r) : Except LexAbort (Option (Token × LexState))) =
        .error .diverge := h
    exact Except.noConfusion h'

theorem next_ne_diverge (input : List Nat)
    (hlast : input[input.length - 1]? = some 10)
    (hpen : input[input.length - 2]? ≠ some 92) (s : LexState) :
    next input s ≠ .error .diverge := by
  intro h
  unfold next at h
  rcases hw : skipWs input (input.length + 1) s with ⟨s₁, b⟩
  rw [hw] at h
  cases b with
  | true =>
    have h' : (Except.ok (some (Token.eol, s₁)) :
        Except LexAbort (Option (Token × LexState))) = .error .diverge := h
    exact Except.noConfusion h'
  | false =>
    have hm : (match cur input s₁ with
        | some c =>
          if isIdentByte c then
            (Except.ok (some (scanIdent input s₁)) :
              Except LexAbort (Option (Token × LexState)))
          else if isDigit c ∨ c = 46 then
            match scanNumber input s₁ with
            | some r => .ok (some r)
            | none => (scanPunct input s₁).map some
          else if c = 34 ∨ c = 39 ∨ c = 60 then
            if s₁.in_directive ∨ c ≠ 60 then
              match scanStringLit input s₁ with
              | .error e => .error e
              | .ok (some r) => .ok (some r)
              | .ok none => (scanPunct input s₁).map some
            else (scanPunct input s₁).map some
          else if isPunctByte c then (scanPunct input s₁).map some
          else .ok (some (scanOther input s₁))
        | none => .ok none) = .error .diverge := h
    cases hc : cur input s₁ with
    | none =>
      rw [hc] at hm
      have h' : (Except.ok none : Except LexAbort (Option (Token × LexState))) =
          .error .diverge := hm
      exact Except.noConfusion h'
    | some c =>
      rw [hc] at hm
      have h' : (if isIdentByte c then
            (Except.ok (some (scanIdent input s₁)) :
              Except LexAbort (Option (Token × LexState)))
          else if isDigit c ∨ c = 46 then
            match scanNumber input s₁ with
            | some r => .ok (some r)
            | none => (scanPunct input s₁).map some
          else if c = 34 ∨ c = 39 ∨ c = 60 then
            if s₁.in_directive ∨ c ≠ 60 then
              match scanStringLit input s₁ with
              | .error e => .error e
              | .ok (some r) => .ok (some r)
              | .ok none => (scanPunct input s₁).map some
            else (scanPunct input s₁).map some
          else if isPunctByte c then (scanPunct input s₁).map some
          else .ok (some (scanOther input s₁))) = .error .diverge := hm
      by_cases hb1 : isIdentByte c
      · rw [if_pos hb1] at h'
        exact Except.noConfusion h'
      · rw [if_neg hb1] at h'
        by_cases hb2 : isDigit c ∨ c = 46
        · rw [if_pos hb2] at h'
          cases hn : scanNumber input s₁ with
          | some r =>
            rw [hn] at h'
            have h'' : (Except.ok (some r) :
                Except LexAbort (Option (Token × LexState))) = .error .diverge := h'
            exact Except.noConfusion h''
          | none =>
            rw [hn] at h'
            exact scanPunctMap_ne_diverge input s₁ h'
        · rw [if_neg hb2] at h'
          by_cases hb3 : c = 34 ∨ c = 39 ∨ c = 60
          · rw [if_pos hb3] at h'
            by_cases hcond : s₁.in_directive = true ∨ c ≠ 60
            · rw [if_pos hcond] at h'
              cases hsl : scanStringLit input s₁ with
              | error e =>
                rw [hsl] at h'
                have h'' : (Except.error e :
                    Except LexAbort (Option (Token × LexState))) = .error .diverge := h'
                exact scanStringLit_no_diverge input hlast hpen s₁
                  ((Except.error.inj h'') ▸ hsl)
              | ok o =>
                rw [hsl] at h'
                cases o with
                | some r =>
                  have h'' : (Except.ok (some r) :
                      Except LexAbort (Option (Token × LexState))) = .error .diverge := h'
                  exact Except.noConfusion h''
                | none =>
                  have h'' : (scanPunct input s₁).map some =
                      (.error .diverge :
                        Except LexAbort (Option (Token × LexState))) := h'
                  exact scanPunctMap_ne_diverge input s₁ h''
            · rw [if_neg hcond] at h'
              exact scanPunctMap_ne_diverge input s₁ h'
          · rw [if_neg hb3] at h'
            by_cases hb4 : isPunctByte c
            · rw [if_pos hb4] at h'
              exact scanPunctMap_ne_diverge input s₁ h'
            · rw [if_neg hb4] at h'
              have h'' : (Except.ok (some (scanOther input s₁)) :
                  Except LexAbort (Option (Token × LexState))) = .error .diverge := h'
              exact Except.noConfusion h''

theorem lexFuel_no_diverge (input : List Nat)
    (hlast : input[input.length - 1]? = some 10)
    (hpen : input[input.length - 2]? ≠ some 92) (fuel : Nat) :
    ∀ s : LexState, s.pos ≤ input.length → input.length + 1 ≤ fuel + s.pos →
      lexFuel input fuel s ≠ .error .diverge := by
  induction fuel with
  | zero =>
    intro s hpos hf h
    omega
  | succ fuel ih =>
    intro s hpos hf h
    have hm : (match next input s with
        | .error e => (Except.error e : Except LexAbort (List Token))
        | .ok none => .ok [.eof]
        | .ok (some (t, s')) => (lexFuel input fuel s').map (t :: ·)) =
        .error .diverge := h
    cases hn : next input s with
    | error e =>
      rw [hn] at hm
      have h' : (Except.error e : Except LexAbort (List Token)) = .error .diverge := hm
      exact next_ne_diverge input hlast hpen s ((Except.error.inj h') ▸ hn)
    | ok o =>
      rw [hn] at hm
      cases o with
      | none =>
        have h' : (Except.ok [Token.eof] : Except LexAbort (List Token)) =
            .error .diverge := hm
        exact Except.noConfusion h'
      | some p =>
        rcases p with ⟨t, s'⟩
        have h' : (lexFuel input fuel s').map (t :: ·) = .error .diverge := hm
        cases hrec : lexFuel input fuel s' with
        | error e =>
          rw [hrec] at h'
          have h'' : (Except.error e : Except LexAbort (List Token)) =
              .error .diverge := h'
          obtain ⟨p1, p2, _, _, _, _⟩ := next_ok_facts input s t s' hn
          exact ih s' p2 (by omega) ((Except.error.inj h'') ▸ hrec)
        | ok ts =>
          rw [hrec] at h'
          have h'' : (Except.ok (t :: ts) : Except LexAbort (List Token)) =
              .error .diverge := h'
          exact Except.noConfusion h''

/-- C10 (amended): if the last byte of the lexer input is a newline and the
second-to-last byte is not a backslash, `lex` never diverges: `next` always
terminates (it may still panic) and the token stream is finite. -/
theorem c10_newline_terminated_lex_terminates (input : List Nat)
    (hlast : input.getLast? = some 10)
    (hpen : input[input.length - 2]? ≠ some 92) :
    lexBytes input ≠ .error .diverge := by
  have hlast' : input[input.length - 1]? = some 10 := by
    rw [← List.getLast?_eq_getElem?]
    exact hlast
  exact lexFuel_no_diverge input hlast' hpen (input.length + 1) initLex
    (Nat.zero_le _) (Nat.le_add_right _ _)

theorem c10_newline_terminated_lex_terminates_witness :
    (bytes "a\n").getLast? = some 10 ∧
      lexBytes (bytes "a\n") ≠ .error .diverge :=
  ⟨by decide,
    c10_newline_terminated_lex_terminates (bytes "a\n") (by decide) (by decide)⟩

/-! ### Synthetic bytes through the pipeline (C7) -/

theorem flipLastFalse_length (bs : List Bool) :
    ∀ bs', flipLastFalse bs = some bs' → bs'.length = bs.length := by
  induction bs with
  | nil => intro bs' h; exact Option.noConfusion h
  | cons b tl ih =>
    intro bs' h
    unfold flipLastFalse at h
    cases hf : flipLastFalse tl with
    | some tl' =>
      rw [hf] at h
      have h' : some (b :: tl') = some bs' := h
      injection h' with h''
      rw [← h'']
      simp [ih tl' hf]
    | none =>
      rw [hf] at h
      by_cases hb : b
      · rw [if_pos hb] at h
        exact Option.noConfusion h
      · rw [if_neg hb] at h
        injection h with h''
        rw [← h'']
        simp

theorem backtrack_shape (pop : Nat) :
    ∀ (l l' : Line), backtrack l pop = some l' →
    l'.text = l.text ∧ l'.synthetic = l.synthetic ∧
      l'.trivial.length = l.trivial.length := by
  induction pop with
  | zero =>
    intro l l' h
    have h' : some l = some l' := h
    injection h' with h''
    rw [← h'']
    exact ⟨rfl, rfl, rfl⟩
  | succ p ih =>
    intro l l' h
    unfold backtrack at h
    cases hf : flipLastFalse l.trivial with
    | none => rw [hf] at h; exact Option.noConfusion h
    | some tr =>
      rw [hf] at h
      have h' : backtrack ⟨l.text, tr, l.synthetic⟩ p = some l' := h
      obtain ⟨h1, h2, h3⟩ := ih _ _ h'
      exact ⟨h1, h2, by rw [h3]; exact flipLastFalse_length l.trivial tr hf⟩

theorem setLastTrivial_shape (l l' : Line) (h : setLastTrivial l = some l') :
    l'.text = l.text ∧ l'.synthetic = l.synthetic ∧
      l'.trivial.length = l.trivial.length := by
  unfold setLastTrivial at h
  cases hg : l.trivial.getLast? with
  | none => rw [hg] at h; exact Option.noConfusion h
  | some b =>
    rw [hg] at h
    have h' : some (⟨l.text, l.trivial.dropLast ++ [true], l.synthetic⟩ : Line) = some l' := h
    injection h' with h''
    have hne : l.trivial ≠ [] := by
      intro he; rw [he] at hg; exact Option.noConfusion hg
    have hp : 0 < l.trivial.length := List.length_pos.mpr hne
    rw [← h'']
    refine ⟨rfl, rfl, ?_⟩
    simp only [List.length_append, List.length_dropLast, List.length_cons,
      List.length_nil]
    omega

theorem lineOk_of_shape (l l' : Line) (h : lineOk l)
    (ht : l'.text = l.text) (hs : l'.synthetic = l.synthetic)
    (htr : l'.trivial.length = l.trivial.length) : lineOk l' := by
  obtain ⟨h1, h2, h3⟩ := h
  refine ⟨?_, ?_, ?_⟩
  · rw [htr, ht, h1]
  · rw [hs, ht, h2]
  · rw [ht, hs]; exact h3

theorem push_lineOk (l : Line) (i : CharInfo) (h : lineOk l)
    (hi : i.synthetic = true → i.ch = 32) : lineOk (l.push i) := by
  obtain ⟨h1, h2, h3⟩ := h
  unfold Line.push
  refine ⟨by simp [h1], by simp [h2], ?_⟩
  intro p hp
  rw [List.zip_append (by rw [h2])] at hp
  rcases List.mem_append.mp hp with hp | hp
  · exact h3 p hp
  · simp at hp
    subst hp
    exact hi

theorem shouldEmit_emit_ch (ch : Nat) (c : CommentState) (e : EmitR)
    (c' : CommentState) (h : shouldEmit ch c = (some e, c')) :
    e.ch = ch ∨ e.ch = 32 := by
  unfold shouldEmit at h
  split_ifs at h <;>
    first
      | (exact Option.noConfusion (congrArg Prod.fst h))
      | (have h1 := congrArg Prod.fst h; injection h1 with h2; rw [← h2]; simp)

theorem charStep_lineOk (b : Line) (c : CommentState) (i : CharInfo)
    (r : Line × CommentState) (h : lineOk b) (hi : i.synthetic = false)
    (hr : charStep b c i = some r) : lineOk r.1 := by
  have hbp : lineOk (b.push i) := push_lineOk b i h (by rw [hi]; intro hx; exact absurd hx (by simp))
  rcases he : shouldEmit i.ch c with ⟨oe, c'⟩
  cases oe with
  | some e =>
    rw [charStep_some b c i e c' he, Option.map_eq_some'] at hr
    obtain ⟨b', hb', hre⟩ := hr
    have hb'ok : lineOk b' := by
      obtain ⟨h1, h2, h3⟩ := backtrack_shape e.pop_count (b.push i) b' hb'
      exact lineOk_of_shape (b.push i) b' hbp h1 h2 h3
    rw [← hre]
    by_cases hne : e.ch ≠ i.ch
    · simp only [if_pos hne]
      refine push_lineOk b' ⟨e.ch, false, true⟩ hb'ok ?_
      intro _
      rcases shouldEmit_emit_ch i.ch c e c' he with h32 | h32
      · exact absurd h32 hne
      · exact h32
    · simp only [if_neg hne]
      exact hb'ok
  | none =>
    rw [charStep_none b c i c' he, Option.map_eq_some'] at hr
    obtain ⟨b', hb', hre⟩ := hr
    obtain ⟨h1, h2, h3⟩ := setLastTrivial_shape (b.push i) b' hb'
    rw [← hre]
    exact lineOk_of_shape (b.push i) b' hbp h1 h2 h3

theorem foldl_charStep_lineOk (is : List CharInfo) :
    ∀ (b : Line) (c : CommentState) (r : Line × CommentState),
    (∀ i ∈ is, i.synthetic = false) → lineOk b →
    is.foldlM (fun (q : Line × CommentState) i => charStep q.1 q.2 i) (b, c) = some r →
    lineOk r.1 := by
  induction is with
  | nil =>
    intro b c r _ h hr
    have h' : some (b, c) = some r := hr
    injection h' with h''
    rw [← h'']
    exact h
  | cons i is ih =>
    intro b c r hsy h hr
    simp only [List.foldlM_cons] at hr
    cases hc : charStep b c i with
    | none => rw [hc] at hr; exact Option.noConfusion hr
    | some p =>
      rw [hc] at hr
      have hr' : is.foldlM (fun (q : Line × CommentState) i => charStep q.1 q.2 i) p = some r := hr
      exact ih p.1 p.2 r (fun j hj => hsy j (List.mem_cons_of_mem _ hj))
        (charStep_lineOk b c i p h (hsy i (List.mem_cons_self i is)) hc) hr'

theorem eolStep_lineOk (b : Line) (c : CommentState) (r : Line × CommentState)
    (h : lineOk b) (hr : eolStep b c = some r) : lineOk r.1 := by
  rcases he : shouldEmit 10 c with ⟨oe, c'⟩
  cases oe with
  | some e =>
    rw [eolStep_some b c e c' he, Option.map_eq_some'] at hr
    obtain ⟨b', hb', hre⟩ := hr
    have hb'ok : lineOk b' := by
      obtain ⟨h1, h2, h3⟩ := backtrack_shape e.pop_count b b' hb'
      exact lineOk_of_shape b b' h h1 h2 h3
    rw [← hre]
    by_cases hne : e.ch ≠ 10
    · simp only [if_pos hne]
      refine push_lineOk b' ⟨e.ch, false, true⟩ hb'ok ?_
      intro _
      rcases shouldEmit_emit_ch 10 c e c' he with h32 | h32
      · exact absurd h32 hne
      · exact h32
    · simp only [if_neg hne]
      exact hb'ok
  | none =>
    rw [eolStep_none b c c' he, Option.map_eq_some'] at hr
    obtain ⟨b', hb', hre⟩ := hr
    obtain ⟨h1, h2, h3⟩ := setLastTrivial_shape b b' hb'
    rw [← hre]
    exact lineOk_of_shape b b' h h1 h2 h3

theorem chars_synthetic_mem (l : Line) (i : CharInfo) (h : i ∈ l.chars) :
    i.synthetic ∈ l.synthetic := by
  unfold Line.chars at h
  obtain ⟨p, hp, hpe⟩ := List.mem_map.mp h
  have h2 := (List.of_mem_zip hp).2
  have h3 := (List.of_mem_zip h2).2
  rw [← hpe]
  exact h3

theorem processLine_lineOk (b : Line) (c : CommentState) (l : Line)
    (r : Line × CommentState) (hsy : synthFalse l) (h : lineOk b)
    (hr : processLine b c l = some r) : lineOk r.1 := by
  unfold processLine at hr
  cases hf : l.chars.foldlM
      (fun (p : Line × CommentState) i => charStep p.1 p.2 i) (b, c) with
  | none => rw [hf] at hr; exact Option.noConfusion hr
  | some p =>
    rw [hf] at hr
    have hr' : eolStep p.1 p.2 = some r := hr
    have hp : lineOk p.1 :=
      foldl_charStep_lineOk l.chars b c p
        (fun i hi => hsy i.synthetic (chars_synthetic_mem l i hi)) h hf
    exact eolStep_lineOk p.1 p.2 r hp hr'

theorem deleteGo_lineOk (L : List Line) :
    ∀ (b : Line) (c : CommentState) (out : List Line),
    (∀ l ∈ L, synthFalse l) → lineOk b →
    deleteGo L b c = some out → ∀ l ∈ out, lineOk l := by
  induction L with
  | nil =>
    intro b c out _ _ h l hl
    have h' : some [] = some out := h
    injection h' with h''
    rw [← h''] at hl
    exact absurd hl (List.not_mem_nil l)
  | cons x xs ih =>
    intro b c out hsy hb h l hl
    unfold deleteGo at h
    cases hp : processLine b c x with
    | none => rw [hp] at h; exact Option.noConfusion h
    | some r =>
      rw [hp] at h
      have hrok : lineOk r.1 :=
        processLine_lineOk b c x r (hsy x (List.mem_cons_self x xs)) hb hp
      have hsy' : ∀ l ∈ xs, synthFalse l := fun y hy => hsy y (List.mem_cons_of_mem _ hy)
      by_cases hblk : r.2.in_block_comment
      · have h' : deleteGo xs r.1 r.2 = some out := by
          have hc : (if r.2.in_block_comment then deleteGo xs r.1 r.2
              else do
                let rest ← deleteGo xs emptyLine r.2
                some (r.1 :: rest)) = some out := h
          rwa [if_pos hblk] at hc
        exact ih r.1 r.2 out hsy' hrok h' l hl
      · have hc : (if r.2.in_block_comment then deleteGo xs r.1 r.2
            else do
              let rest ← deleteGo xs emptyLine r.2
              some (r.1 :: rest)) = some out := h
        rw [if_neg hblk] at hc
        cases hrest : deleteGo xs emptyLine r.2 with
        | none => rw [hrest] at hc; exact Option.noConfusion hc
        | some rest =>
          rw [hrest] at hc
          have hc' : some (r.1 :: rest) = some out := hc
          injection hc' with hc''
          rw [← hc''] at hl
          rcases List.mem_cons.mp hl with hl | hl
          · rw [hl]; exact hrok
          · exact ih emptyLine r.2 rest hsy'
              ⟨rfl, rfl, by intro p hp; exact absurd hp (List.not_mem_nil p)⟩ hrest l hl

theorem splitLines_synthFalse (input : List Nat) :
    ∀ l ∈ splitLines input, synthFalse l := by
  intro l hl
  unfold splitLines at hl
  obtain ⟨t, _, hte⟩ := List.mem_map.mp hl
  rw [← hte]
  intro b hb
  exact (by simpa using List.mem_map.mp hb : (∃ x, x ∈ t) ∧ b = false).2

theorem mergeGo_synthFalse (L : List Line) :
    ∀ (b : Line) (out : List Line), (∀ l ∈ L, synthFalse l) → synthFalse b →
    mergeGo L b = some out → ∀ l ∈ out, synthFalse l := by
  induction L with
  | nil =>
    intro b out _ hb h l hl
    unfold mergeGo at h
    by_cases he : b.text.isEmpty
    · rw [if_pos he] at h
      injection h with h''
      rw [← h''] at hl
      exact absurd hl (List.not_mem_nil l)
    · rw [if_neg he] at h
      injection h with h''
      rw [← h''] at hl
      rcases List.mem_singleton.mp hl
      exact hb
  | cons x xs ih =>
    intro b out hsy hb h l hl
    have hx := hsy x (List.mem_cons_self x xs)
    have hxs : ∀ y ∈ xs, synthFalse y := fun y hy => hsy y (List.mem_cons_of_mem _ hy)
    unfold mergeGo at h
    by_cases hbs : endsBackslash x.text
    · rw [if_pos hbs] at h
      by_cases hlen : x.trivial.length < 2
      · rw [if_pos hlen] at h; exact Option.noConfusion h
      · rw [if_neg hlen] at h
        refine ih _ out hxs ?_ h l hl
        intro p hp
        rcases List.mem_append.mp hp with hp | hp
        · exact hb p hp
        · exact hx p hp
    · rw [if_neg hbs] at h
      by_cases he : b.text.isEmpty
      · rw [if_pos he, Option.map_eq_some'] at h
        obtain ⟨out', hout', hoe⟩ := h
        rw [← hoe] at hl
        rcases List.mem_cons.mp hl with hl | hl
        · rw [hl]; exact hx
        · exact ih emptyLine out' hxs (by intro p hp; exact absurd hp (List.not_mem_nil p)) hout' l hl
      · rw [if_neg he, Option.map_eq_some'] at h
        obtain ⟨out', hout', hoe⟩ := h
        rw [← hoe] at hl
        rcases List.mem_cons.mp hl with hl | hl
        · rw [hl]
          intro p hp
          rcases List.mem_append.mp hp with hp | hp
          · exact hb p hp
          · exact hx p hp
        · exact ih emptyLine out' hxs (by intro p hp; exact absurd hp (List.not_mem_nil p)) hout' l hl

/-- C7 amended: for every raw input, every synthetic byte of every
finalized line of the pipeline — whether or not `backtrack` later flipped
its `trivial` flag — is the space byte 32 inserted in place of a comment
(and trivialized bytes are dropped at materialization). The combination
`synthetic ∧ trivial` does reach finalized lines; see the counterexample. -/
theorem c7_synthetic_bytes_are_spaces (input : List Nat) (ls : List Line)
    (h : pipelineLines input = some ls) : synthSpacesOnly ls = true := by
  unfold pipelineLines at h
  cases hm : mergeEscapedNewlines (splitLines input) with
  | none => rw [hm] at h; exact Option.noConfusion h
  | some ms =>
    rw [hm, Option.some_bind] at h
    have hmsf : ∀ l ∈ ms, synthFalse l :=
      mergeGo_synthFalse (splitLines input) emptyLine ms
        (splitLines_synthFalse input)
        (by intro p hp; exact absurd hp (List.not_mem_nil p)) hm
    have hout : ∀ l ∈ ls, lineOk l :=
      deleteGo_lineOk ms emptyLine initComments ls hmsf
        ⟨rfl, rfl, by intro p hp; exact absurd hp (List.not_mem_nil p)⟩ h
    unfold synthSpacesOnly
    rw [List.all_eq_true]
    intro l hl
    rw [List.all_eq_true]
    intro p hp
    have := (hout l hl).2.2 p hp
    by_cases h2 : p.2
    · simp [h2, this h2]
    · simp [h2]

theorem c7_synthetic_bytes_are_spaces_witness :
    synthSpacesOnly [⟨[120], [false], [false]⟩] = true :=
  c7_synthetic_bytes_are_spaces (bytes "x\n") [⟨[120], [false], [false]⟩] (by rfl)

/-! ### Comment-strip identity on plain lines (C5) -/

theorem shouldEmit_plain (ch : Nat) (c : CommentState)
    (h34 : ch ≠ 34) (h47 : ch ≠ 47) (h42 : ch ≠ 42)
    (hs : c.in_string = false) (hb : c.in_block_comment = false)
    (hl : c.in_line_comment = false) :
    shouldEmit ch c = (some ⟨ch, 0⟩, c) := by
  unfold shouldEmit
  split_ifs <;> simp_all

theorem charStep_plain (b : Line) (c : CommentState) (i : CharInfo)
    (h34 : i.ch ≠ 34) (h47 : i.ch ≠ 47) (h42 : i.ch ≠ 42)
    (hs : c.in_string = false) (hb : c.in_block_comment = false)
    (hl : c.in_line_comment = false) :
    charStep b c i =
      some (b.push i, if !i.trivial then { c with prev_char := i.ch } else c) := by
  rw [charStep_some b c i ⟨i.ch, 0⟩ c (shouldEmit_plain i.ch c h34 h47 h42 hs hb hl)]
  simp [backtrack]

theorem foldl_charStep_plain (is : List CharInfo) :
    ∀ (b : Line) (c : CommentState),
    (∀ i ∈ is, i.ch ≠ 34 ∧ i.ch ≠ 47 ∧ i.ch ≠ 42) →
    c.in_string = false → c.in_block_comment = false → c.in_line_comment = false →
    ∃ p, is.foldlM (fun (q : Line × CommentState) i => charStep q.1 q.2 i) (b, c) =
      some (pushAll b is, ⟨false, false, false, p⟩) := by
  induction is with
  | nil =>
    intro b c _ hs hb hl
    refine ⟨c.prev_char, ?_⟩
    obtain ⟨s, k, l, p⟩ := c
    simp only at hs hb hl
    subst hs hb hl
    rfl
  | cons i is ih =>
    intro b c hgood hs hb hl
    obtain ⟨h34, h47, h42⟩ := hgood i (List.mem_cons_self i is)
    have hstep := charStep_plain b c i h34 h47 h42 hs hb hl
    have hgood' : ∀ j ∈ is, j.ch ≠ 34 ∧ j.ch ≠ 47 ∧ j.ch ≠ 42 :=
      fun j hj => hgood j (List.mem_cons_of_mem _ hj)
    by_cases ht : i.trivial
    · obtain ⟨p, hp⟩ := ih (b.push i) c hgood' hs hb hl
      refine ⟨p, ?_⟩
      have hcond : ¬((!i.trivial) = true) := by simp [ht]
      simp only [List.foldlM_cons, hstep, if_neg hcond]
      exact hp
    · obtain ⟨p, hp⟩ := ih (b.push i) { c with prev_char := i.ch } hgood' hs hb hl
      refine ⟨p, ?_⟩
      have hcond : (!i.trivial) = true := by simp [ht]
      simp only [List.foldlM_cons, hstep, if_pos hcond]
      exact hp

theorem pushAll_chars (t : List Nat) :
    ∀ (tr sy : List Bool) (b : Line), tr.length = t.length → sy.length = t.length →
    pushAll b (Line.chars ⟨t, tr, sy⟩) =
      ⟨b.text ++ t, b.trivial ++ tr, b.synthetic ++ sy⟩ := by
  induction t with
  | nil =>
    intro tr sy b htr hsy
    rw [List.length_eq_zero.mp htr, List.length_eq_zero.mp hsy]
    simp [pushAll, Line.chars]
  | cons ch t ihs =>
    intro tr sy b htr hsy
    cases tr with
    | nil => simp at htr
    | cons a tr =>
      cases sy with
      | nil => simp at hsy
      | cons s sy =>
        have h1 : Line.chars ⟨ch :: t, a :: tr, s :: sy⟩ =
            (⟨ch, a, s⟩ : CharInfo) :: Line.chars ⟨t, tr, sy⟩ := by
          simp [Line.chars]
        have h2 : pushAll b ((⟨ch, a, s⟩ : CharInfo) :: Line.chars ⟨t, tr, sy⟩) =
            pushAll (b.push ⟨ch, a, s⟩) (Line.chars ⟨t, tr, sy⟩) := rfl
        rw [h1, h2, ihs tr sy (b.push ⟨ch, a, s⟩) (by simpa using htr) (by simpa using hsy)]
        simp [Line.push]

theorem eolStep_plain (b : Line) (c : CommentState)
    (hs : c.in_string = false) (hb : c.in_block_comment = false)
    (hl : c.in_line_comment = false) :
    eolStep b c = some (b, { c with prev_char := 10 }) := by
  rw [eolStep_some b c ⟨10, 0⟩ c
    (shouldEmit_plain 10 c (by decide) (by decide) (by decide) hs hb hl)]
  simp [backtrack]

theorem chars_ch_mem (l : Line) (i : CharInfo) (h : i ∈ l.chars) : i.ch ∈ l.text := by
  unfold Line.chars at h
  obtain ⟨p, hp, hpe⟩ := List.mem_map.mp h
  have := (List.of_mem_zip hp).1
  rw [← hpe]
  exact this

theorem plainLineB_parts (l : Line) (h : plainLineB l = true) :
    l.trivial.length = l.text.length ∧ l.synthetic.length = l.text.length ∧
    ∀ ch ∈ l.text, ch ≠ 34 ∧ ch ≠ 47 ∧ ch ≠ 42 := by
  unfold plainLineB at h
  simp only [Bool.decide_and, Bool.and_eq_true, decide_eq_true_eq, List.all_eq_true] at h
  exact ⟨h.1, h.2.1, fun ch hch => by simpa using h.2.2 ch hch⟩

theorem processLine_plain (c : CommentState) (l : Line)
    (h : plainLineB l = true)
    (hs : c.in_string = false) (hb : c.in_block_comment = false)
    (hl : c.in_line_comment = false) :
    processLine emptyLine c l = some (l, ⟨false, false, false, 10⟩) := by
  obtain ⟨htr, hsy, hgood⟩ := plainLineB_parts l h
  have hgood' : ∀ i ∈ l.chars, i.ch ≠ 34 ∧ i.ch ≠ 47 ∧ i.ch ≠ 42 :=
    fun i hi => hgood i.ch (chars_ch_mem l i hi)
  obtain ⟨p, hp⟩ := foldl_charStep_plain l.chars emptyLine c hgood' hs hb hl
  have hpush : pushAll emptyLine l.chars = l := by
    obtain ⟨t, tr, sy⟩ := l
    rw [pushAll_chars t tr sy emptyLine htr hsy]
    rfl
  unfold processLine
  rw [hp, hpush]
  have : eolStep l (⟨false, false, false, p⟩ : CommentState) =
      some (l, ⟨false, false, false, 10⟩) :=
    eolStep_plain l ⟨false, false, false, p⟩ rfl rfl rfl
  exact this

theorem deleteGo_plain (L : List Line) :
    ∀ (c : CommentState), (∀ l ∈ L, plainLineB l = true) →
    c.in_string = false → c.in_block_comment = false → c.in_line_comment = false →
    deleteGo L emptyLine c = some L := by
  induction L with
  | nil => intro c _ _ _ _; rfl
  | cons l ls ih =>
    intro c hgood hs hb hl
    have hpl := processLine_plain c l (hgood l (List.mem_cons_self l ls)) hs hb hl
    have hrest : deleteGo ls emptyLine ⟨false, false, false, 10⟩ = some ls :=
      ih ⟨false, false, false, 10⟩ (fun x hx => hgood x (List.mem_cons_of_mem _ hx))
        rfl rfl rfl
    show (do
      let r ← processLine emptyLine c l
      if r.2.in_block_comment then deleteGo ls r.1 r.2
      else do
        let rest ← deleteGo ls emptyLine r.2
        some (r.1 :: rest)) = some (l :: ls)
    rw [hpl]
    have : (do
        let rest ← deleteGo ls emptyLine (⟨false, false, false, 10⟩ : CommentState)
        some ((l, (⟨false, false, false, 10⟩ : CommentState)).1 :: rest) :
          Option (List Line)) = some (l :: ls) := by
      rw [hrest]
      rfl
    exact this

/-- C5 amended: on length-coherent line sequences containing no `"`, `/`,
or `*` bytes, `delete_comments` is the identity, hence idempotent. (In
general it is not idempotent: see the counterexample, where a quote byte
trivialized inside a comment toggles the string state on the second
pass.) -/
theorem c5_delete_comments_id_on_plain (L : List Line)
    (h : ∀ l ∈ L, plainLineB l = true) :
    deleteComments L = some L ∧
    Option.bind (deleteComments L) deleteComments = deleteComments L := by
  have h1 : deleteComments L = some L :=
    deleteGo_plain L initComments h rfl rfl rfl
  refine ⟨h1, ?_⟩
  rw [h1, Option.some_bind, h1]

theorem c5_delete_comments_id_on_plain_witness :
    deleteComments [⟨bytes "ab", [false, false], [false, false]⟩] =
      some [⟨bytes "ab", [false, false], [false, false]⟩] ∧
    Option.bind (deleteComments [⟨bytes "ab", [false, false], [false, false]⟩])
        deleteComments =
      deleteComments [⟨bytes "ab", [false, false], [false, false]⟩] :=
  c5_delete_comments_id_on_plain
    [⟨bytes "ab", [false, false], [false, false]⟩] (by decide)

theorem c9_eol_resets_line_comment_not_string_witness :
    ((⟨[34], [false], [false]⟩ : Line),
      (⟨true, false, false, 10⟩ : CommentState)).2.in_line_comment = false ∧
    ((⟨[97], [false], [false]⟩ : Line),
      (⟨true, false, false, 10⟩ : CommentState)).2.in_string =
      (⟨true, false, false, 97⟩ : CommentState).in_string :=
  ⟨c9_eol_resets_line_comment_not_string.1 emptyLine initComments
      ⟨[34], [false], [false]⟩ _ (by decide) (by rfl),
   c9_eol_resets_line_comment_not_string.2 ⟨[97], [false], [false]⟩
      ⟨true, false, false, 97⟩ _ (by rfl)⟩

end RP
